import Mathlib

/-!
Shallow embedding of the lease-based job queue, dedup ledger and stage
runners of the eu-fund-tracker repository (src/shared/queue.ts,
src/shared/dedup.ts, the consolidated-ledger dedup variant,
src/modules/notifier.ts, src/modules/summarizer.ts,
src/workers/processor.ts, src/shared/worker.ts), together with theorems
settling the frozen claims about them.

Modelling conventions:
* The Cloudflare KV namespace is modelled as an association list from keys
  to values tagged with an absolute expiry instant.  Wall-clock time is an
  explicit `now : Nat` parameter in milliseconds (the unit of
  `Date.now()`); `expirationTtl` is given in seconds, as in the source,
  and converted to milliseconds at `put` time.  A key whose expiry is not
  in the strict future is treated as absent, which models TTL
  self-expiry.
* JSON (de)serialisation is modelled by typing the store's values with the
  record shapes the code actually writes (`KVValue`).  An operation that
  would `JSON.parse` a value of an unexpected shape is modelled as
  throwing (`none` / `Except.error`), mirroring the fact that such a call
  leaves the modelled regime.
* `Date.prototype.toISOString` timestamps are diagnostic-only strings in
  this code base; they are rendered as the decimal millisecond count
  (`tsString`), which preserves exactly the property the claims use:
  different instants render differently.
* `String.prototype.charCodeAt` returns UTF-16 code units; for the
  strings appearing here (URLs, ASCII identifiers) these coincide with
  the Unicode scalar values `Char.toNat` returns.
-/

/-! ## JavaScript 32-bit integer arithmetic (for hashUrl) -/

/-- JS `ToInt32`: reduce an integer modulo 2^32 into `[-2^31, 2^31)`. -/
def toInt32 (n : Int) : Int :=
  let m := n % 4294967296
  if m < 2147483648 then m else m - 4294967296

/-- One step of the hash loop of `hashUrl` (src/shared/dedup.ts:20-22):
`hash = (hash << 5) - hash + char; hash = hash & hash`.  `hash` is already
an int32 when the step runs, so `hash << 5` is `ToInt32 (hash * 32)`, the
subtraction and addition are exact, and `hash & hash` is a final
`ToInt32`. -/
def hashStep (h : Int) (c : Nat) : Int :=
  toInt32 (toInt32 (h * 32) - h + c)

/-- Digit characters of JS `Number.prototype.toString(36)`: `0`-`9` then
`a`-`z`. -/
def base36Digit (d : Nat) : Char :=
  if d < 10 then Char.ofNat (48 + d) else Char.ofNat (87 + d)

/-- Little-endian base-36 digit list of `n`; `fuel` bounds the recursion
depth so that the definition is structural (and kernel-reducible).  Any
`fuel ≥ n` yields the full expansion. -/
def base36DigitsRev : Nat → Nat → List Nat
  | 0, _ => []
  | fuel + 1, n => if n = 0 then [] else n % 36 :: base36DigitsRev fuel (n / 36)

/-- JS `n.toString(36)` for a natural number `n`. -/
def natToBase36 (n : Nat) : String :=
  if n = 0 then "0" else ⟨((base36DigitsRev n n).map base36Digit).reverse⟩

/-- Little-endian decimal digit list with explicit fuel, as above. -/
def decDigitsRev : Nat → Nat → List Nat
  | 0, _ => []
  | fuel + 1, n => if n = 0 then [] else n % 10 :: decDigitsRev fuel (n / 10)

/-- JS string conversion of a natural number (the `${timestamp}` template
interpolation in `enqueue`): its decimal representation. -/
def decRepr (n : Nat) : String :=
  if n = 0 then "0" else ⟨((decDigitsRev n n).map (fun d => Char.ofNat (48 + d))).reverse⟩

/-- Stand-in rendering of `new Date(now).toISOString()`: an injective
rendering of the instant.  The code only ever stores these strings as
diagnostics; no claim depends on the ISO format itself. -/
def tsString (now : Nat) : String := decRepr now

/-- JS `String.prototype.includes` (substring test). -/
def strIncludes (s needle : String) : Bool :=
  decide (List.IsInfix needle.data s.data)

/-- JS `startsWith` / key-prefix test used by the KV `list` contract. -/
def strStartsWith (pfx s : String) : Bool :=
  pfx.data.isPrefixOf s.data

/-! ## Data model (src/types.ts and the record shapes written to KV) -/

/-- `Opportunity` (src/types.ts). -/
structure Opportunity where
  title : String
  link : String
  identifier : Option String
  announcementType : Option String
  status : Option String
  opening : Option String
  deadline : Option String
  programmeName : Option String
  actionType : Option String
  stage : Option String
  summary : Option String
deriving DecidableEq, Repr

/-- The JSON record shape of a queue entry: the `QueueJob` base interface
(src/shared/queue.ts:14-18) plus the extension fields of the concrete job
types `SummarizeJob` / `NotifyJob` (src/types.ts); `fail` reads and
writes only the base fields and carries the rest through unchanged, as
the JSON round-trip does. -/
structure QueueJob where
  attempts : Int
  lastAttempt : Option String
  error : Option String
  url : Option String
  opportunity : Option Opportunity
  summarized : Option String
  enqueued : Option String
deriving DecidableEq, Repr

/-- `SummarizeBatchJob` (batch jobs written by the crawler and read by
src/workers/processor.ts). -/
structure SummarizeBatchJob where
  batchId : String
  opportunities : List Opportunity
  enqueued : String
  attempts : Int
  lastAttempt : Option String
  error : Option String
deriving DecidableEq, Repr

/-- The DLQ record written by `fail` (src/shared/queue.ts:125-130). -/
structure DlqEntry where
  job : QueueJob
  failedAt : String
  attempts : Int
  lastError : String
deriving DecidableEq, Repr

/-- `SeenRecord` (src/shared/dedup.ts:6-11). -/
structure SeenRecord where
  url : String
  firstSeen : String
  identifier : Option String
  title : String
deriving DecidableEq, Repr

/-- The value shapes this code base writes to the KV store. -/
inductive KVValue where
  | str (s : String)
  | job (j : QueueJob)
  | batch (b : SummarizeBatchJob)
  | dlqEntry (d : DlqEntry)
  | seenRec (r : SeenRecord)
  | seenDb (db : List (String × SeenRecord))
deriving DecidableEq, Repr

/-- Rendering of a stored value back to the string KV actually holds;
`.str` values round-trip exactly, other shapes render via `Repr` as a
stand-in for their JSON text (reached only off the typed regime). -/
def KVValue.asString : KVValue → String
  | .str s => s
  | v => reprStr v

/-! ## The KV store -/

/-- One stored binding: the value and its absolute expiry (ms). -/
structure KVEntry where
  value : KVValue
  expiresAt : Nat
deriving DecidableEq, Repr

/-- A KV namespace: at most one binding per key (maintained by `kvPut`). -/
def Store := List (String × KVEntry)

instance : DecidableEq Store := inferInstanceAs (DecidableEq (List (String × KVEntry)))

instance : Repr Store := inferInstanceAs (Repr (List (String × KVEntry)))

instance : Membership (String × KVEntry) Store :=
  inferInstanceAs (Membership (String × KVEntry) (List (String × KVEntry)))

/-- The empty namespace. -/
def kvEmpty : Store := []

/-- Remove every binding of `k`. -/
def eraseKey (s : Store) (k : String) : Store :=
  s.filter (fun p => p.1 != k)

/-- `put(key, value, {expirationTtl})` at instant `now` (ms), TTL in
seconds as in the source. -/
def kvPut (s : Store) (now : Nat) (k : String) (v : KVValue) (ttlSeconds : Nat) : Store :=
  (k, ⟨v, now + ttlSeconds * 1000⟩) :: eraseKey s k

/-- `get(key)` at instant `now`: an expired binding is absent. -/
def kvGet (s : Store) (now : Nat) (k : String) : Option KVValue :=
  match s.lookup k with
  | some e => if now < e.expiresAt then some e.value else none
  | none => none

/-- `delete(key)`. -/
def kvDelete (s : Store) (k : String) : Store :=
  eraseKey s k

/-- `list({prefix, limit})`: the live keys under `pfx`, in lexicographic
(code-unit) order, truncated to `limit` — the Cloudflare KV `list`
contract. -/
def kvList (s : Store) (now : Nat) (pfx : String) (limit : Nat) : List String :=
  (((s.filter (fun p => strStartsWith pfx p.1 && decide (now < p.2.expiresAt))).map
      (fun p => p.1)).mergeSort (fun a b => decide (a ≤ b))).take limit

/-! ## Queue (src/shared/queue.ts) -/

def SUMMARIZE_QUEUE_PFX : String := "queue:summarize:"
def NOTIFY_QUEUE_PFX : String := "queue:notify:"
def PROCESSING_PFX : String := "processing:"
def DLQ_SUMMARIZE_PFX : String := "dlq:summarize:"
def DLQ_NOTIFY_PFX : String := "dlq:notify:"

def QUEUE_TTL_DAYS : Nat := 7
def PROCESSING_TTL_MINUTES : Nat := 15
def DLQ_TTL_DAYS : Nat := 30

/-- `Duration.fromObject({days}).as('seconds')`. -/
def daysToSeconds (d : Nat) : Nat := d * 86400

/-- `Duration.fromObject({minutes}).as('seconds')`. -/
def minutesToSeconds (m : Nat) : Nat := m * 60

/-- `hashUrl` (src/shared/dedup.ts:17-25): the 31x+c rolling hash over the
code units, wrapped to a signed 32-bit integer, absolute value, base 36. -/
def hashUrl (url : String) : String :=
  natToBase36 (url.data.foldl (fun h c => hashStep h c.toNat) 0).natAbs

/-- `enqueue` (src/shared/queue.ts:24-39): key is
`{prefix}{timestamp}:{urlHash}`; returns the key with the updated store. -/
def enqueue (s : Store) (now : Nat) (pfx : String) (url : String) (value : QueueJob) :
    String × Store :=
  let key := pfx ++ decRepr now ++ ":" ++ hashUrl url
  (key, kvPut s now key (.job value) (daysToSeconds QUEUE_TTL_DAYS))

/-- `listPending` (src/shared/queue.ts:45-48): list up to `limit` keys
under the prefix, then `.sort()` the names (a second lexicographic
sort). -/
def listPending (s : Store) (now : Nat) (pfx : String) (limit : Nat) : List String :=
  (kvList s now pfx limit).mergeSort (fun a b => decide (a ≤ b))

/-- `claim` (src/shared/queue.ts:54-71): check-then-write on the
processing marker keyed by the subject hash. -/
def claim (s : Store) (now : Nat) (url : String) : Bool × Store :=
  let processingKey := PROCESSING_PFX ++ hashUrl url
  match kvGet s now processingKey with
  | some _ => (false, s)
  | none =>
      (true, kvPut s now processingKey (.str (tsString now))
        (minutesToSeconds PROCESSING_TTL_MINUTES))

/-- `release` (src/shared/queue.ts:76-80). -/
def release (s : Store) (url : String) : Store :=
  kvDelete s (PROCESSING_PFX ++ hashUrl url)

/-- `complete` (src/shared/queue.ts:85-90): delete the queue entry and the
processing marker (issued together; modelled in program order). -/
def complete (s : Store) (queueKey : String) (url : String) : Store :=
  kvDelete (kvDelete s queueKey) (PROCESSING_PFX ++ hashUrl url)

/-- `fail` (src/shared/queue.ts:98-152).  `none` models the JS exception
thrown when the value under `queueKey` does not parse as a queue job
(outside the typed regime); on the in-regime paths the result is `some`
of the updated store. -/
def fail (s : Store) (now : Nat) (queueKey : String) (url : String) (error : String)
    (maxAttempts : Int) (dlqPfx : String) : Option Store :=
  let urlHash := hashUrl url
  let processingKey := PROCESSING_PFX ++ urlHash
  match kvGet s now queueKey with
  | none => some (kvDelete s processingKey)
  | some (.job job) =>
      let job' : QueueJob :=
        { job with attempts := job.attempts + 1, lastAttempt := some (tsString now),
                   error := some error }
      if job'.attempts ≥ maxAttempts then
        let dlqKey := dlqPfx ++ urlHash
        let dlqValue : DlqEntry :=
          { job := job', failedAt := tsString now, attempts := job'.attempts,
            lastError := error }
        some (kvDelete
          (kvDelete (kvPut s now dlqKey (.dlqEntry dlqValue) (daysToSeconds DLQ_TTL_DAYS))
            queueKey)
          processingKey)
      else
        some (kvDelete (kvPut s now queueKey (.job job') (daysToSeconds QUEUE_TTL_DAYS))
          processingKey)
  | some _ => none

/-- `getJob` (src/shared/queue.ts:157-161): `ok none` when the key is
absent (the benign skip), `error` when the stored value does not parse as
a job. -/
def getJob (s : Store) (now : Nat) (queueKey : String) : Except String (Option QueueJob) :=
  match kvGet s now queueKey with
  | none => .ok none
  | some (.job j) => .ok (some j)
  | some _ => .error "JSON parse failure"

/-- `getJob` specialised to batch jobs, as src/workers/processor.ts reads
the summarize queue. -/
def getBatchJob (s : Store) (now : Nat) (queueKey : String) :
    Except String (Option SummarizeBatchJob) :=
  match kvGet s now queueKey with
  | none => .ok none
  | some (.batch b) => .ok (some b)
  | some _ => .error "JSON parse failure"

/-! ## Per-subject dedup ledger (src/shared/dedup.ts) -/

def SEEN_PFX : String := "seen:"
def SEEN_TTL_DAYS : Nat := 90

/-- `isSeen` (src/shared/dedup.ts:30-34). -/
def isSeen (s : Store) (now : Nat) (url : String) : Bool :=
  (kvGet s now (SEEN_PFX ++ hashUrl url)).isSome

/-- `markSeen` (src/shared/dedup.ts:39-54): writes a fresh record keyed by
the subject hash, with `firstSeen` set to the time of this call. -/
def markSeen (s : Store) (now : Nat) (url : String)
    (identifier : Option String) (title : String) : Store :=
  let record : SeenRecord :=
    { url := url, firstSeen := tsString now, identifier := identifier, title := title }
  kvPut s now (SEEN_PFX ++ hashUrl url) (.seenRec record) (daysToSeconds SEEN_TTL_DAYS)

/-- `getSeenRecord` (src/shared/dedup.ts:59-64); `error` when the stored
value does not parse as a seen record. -/
def getSeenRecord (s : Store) (now : Nat) (url : String) : Except String (Option SeenRecord) :=
  match kvGet s now (SEEN_PFX ++ hashUrl url) with
  | none => .ok none
  | some (.seenRec r) => .ok (some r)
  | some _ => .error "JSON parse failure"

/-! ## Consolidated dedup ledger (the single-document variant) -/

def SEEN_KEY : String := "seen:all"

/-- JS object update `db[urlHash] = record`: replace in place, else
append. -/
def dbSet : List (String × SeenRecord) → String → SeenRecord → List (String × SeenRecord)
  | [], k, v => [(k, v)]
  | (k', v') :: rest, k, v =>
      if k' = k then (k, v) :: rest else (k', v') :: dbSet rest k v

namespace Ledger

/-- `loadSeenDatabase`: absent key yields the empty ledger; a value of an
unexpected shape is a JSON parse exception. -/
def loadSeenDatabase (s : Store) (now : Nat) : Except String (List (String × SeenRecord)) :=
  match kvGet s now SEEN_KEY with
  | none => .ok []
  | some (.seenDb db) => .ok db
  | some _ => .error "JSON parse failure"

/-- `saveSeenDatabase`. -/
def saveSeenDatabase (s : Store) (now : Nat) (db : List (String × SeenRecord)) : Store :=
  kvPut s now SEEN_KEY (.seenDb db) (daysToSeconds SEEN_TTL_DAYS)

/-- `isSeen` of the consolidated variant. -/
def isSeen (s : Store) (now : Nat) (url : String) : Except String Bool :=
  (loadSeenDatabase s now).map (fun db => (db.lookup (hashUrl url)).isSome)

/-- `markSeen` of the consolidated variant: read-modify-write of the whole
ledger document, overwriting the subject's slot with a fresh record. -/
def markSeen (s : Store) (now : Nat) (url : String)
    (identifier : Option String) (title : String) : Except String Store :=
  (loadSeenDatabase s now).map (fun db =>
    saveSeenDatabase s now (dbSet db (hashUrl url)
      { url := url, firstSeen := tsString now, identifier := identifier, title := title }))

/-- `markSeenBatch`: one load, one timestamp, one slot overwrite per item,
one save.  Items are `(url, identifier, title)`. -/
def markSeenBatch (s : Store) (now : Nat)
    (items : List (String × Option String × String)) : Except String Store :=
  (loadSeenDatabase s now).map (fun db =>
    saveSeenDatabase s now (items.foldl (fun db item =>
      dbSet db (hashUrl item.1)
        { url := item.1, firstSeen := tsString now, identifier := item.2.1,
          title := item.2.2 }) db))

/-- `getSeenRecord` of the consolidated variant (`db[urlHash] || null`). -/
def getSeenRecord (s : Store) (now : Nat) (url : String) :
    Except String (Option SeenRecord) :=
  (loadSeenDatabase s now).map (fun db => db.lookup (hashUrl url))

end Ledger

/-! ## Worker harness (src/shared/worker.ts) -/

/-- The observable part of the `Response` objects `createWorker` builds:
HTTP status, the body's `status` field, and its `message` field. -/
structure FetchResponse where
  status : Nat
  statusField : String
  message : String
deriving DecidableEq, Repr

/-- The `scheduled` entry point (src/shared/worker.ts:26-36): runs the
handler inside try/catch and never rethrows. -/
def workerScheduled {α β : Type} (handler : α → Except String β) (a : α) :
    Except String Unit :=
  match handler a with
  | .ok _ => .ok ()
  | .error _ => .ok ()

/-- The `fetch` entry point (src/shared/worker.ts:38-91): `/run-once` runs
the handler, answering 200 on success and 500 with the error message on
failure; any other path answers the health check. -/
def workerFetch {α β : Type} (handler : α → Except String β) (path : String) (a : α) :
    FetchResponse :=
  if path = "/run-once" then
    match handler a with
    | .ok _ => ⟨200, "success", "Worker executed successfully"⟩
    | .error e => ⟨500, "error", e⟩
  else
    ⟨200, "ok", "Send a GET request to /run-once to manually run this worker"⟩

/-! ## Stage runners -/

/-- The environment bindings the runners consult (src/types.ts `Env`);
`none` models a missing binding/variable. -/
structure Env where
  summaries : Option Store
  discordWebhookUrl : Option String
  notifierBatchSize : Option Nat
  maxNotifyAttempts : Option Nat
  summarizerBatchSize : Option Nat
  maxSummarizeAttempts : Option Nat
deriving Repr

/-- The processed/succeeded/failed/skipped counters every runner keeps. -/
structure RunStats where
  processed : Nat
  succeeded : Nat
  failed : Nat
  skipped : Nat
deriving DecidableEq, Repr

def RunStats.zero : RunStats := ⟨0, 0, 0, 0⟩

/-- One iteration of the notifier's job loop
(src/modules/notifier.ts:44-94).  `post` is the outcome of
`postOpportunity` on the given opportunity; a thrown `fail`-internal
parse error propagates (the outer catch rethrows). -/
def notifierStep (s : Store) (now : Nat) (post : Opportunity → Except String Unit)
    (maxAttempts : Int) (queueKey : String) (st : RunStats) :
    Except String (Store × RunStats) :=
  match getJob s now queueKey with
  | .error e => .error e
  | .ok none => .ok (s, st)
  | .ok (some job) =>
      match job.opportunity with
      | none => .error "TypeError: job.opportunity is undefined"
      | some opp =>
          let url := opp.link
          let st := { st with processed := st.processed + 1 }
          match claim s now url with
          | (false, s) => .ok (s, { st with skipped := st.skipped + 1 })
          | (true, s) =>
              match post opp with
              | .ok _ =>
                  .ok (complete s queueKey url, { st with succeeded := st.succeeded + 1 })
              | .error errorMsg =>
                  if strIncludes errorMsg "rate limit" then
                    .ok (release s url, { st with skipped := st.skipped + 1 })
                  else
                    match fail s now queueKey url errorMsg maxAttempts DLQ_NOTIFY_PFX with
                    | some s => .ok (s, { st with failed := st.failed + 1 })
                    | none => .error "JSON parse failure"

/-- The notifier's loop over the pending keys. -/
def notifierLoop (now : Nat) (post : Opportunity → Except String Unit) (maxAttempts : Int) :
    List String → Store → RunStats → Except String (Store × RunStats)
  | [], s, st => .ok (s, st)
  | queueKey :: rest, s, st =>
      match notifierStep s now post maxAttempts queueKey st with
      | .error e => .error e
      | .ok (s', st') => notifierLoop now post maxAttempts rest s' st'

/-- `handleNotifierCron` (src/modules/notifier.ts:18-104): binding checks,
batch-size/attempt configuration, then the loop over `listPending`. -/
def handleNotifierCron (env : Env) (now : Nat) (post : Opportunity → Except String Unit) :
    Except String (Store × RunStats) :=
  match env.summaries with
  | none => .error "No SUMMARIES KV namespace binding"
  | some s =>
      match env.discordWebhookUrl with
      | none => .error "No DISCORD_WEBHOOK_URL environment variable"
      | some _ =>
          let batchSize := env.notifierBatchSize.getD 10
          let maxAttempts : Int := (env.maxNotifyAttempts.getD 5 : Nat)
          notifierLoop now post maxAttempts
            (listPending s now NOTIFY_QUEUE_PFX batchSize) s .zero

/-- The summary cache-or-generate block shared by
src/modules/summarizer.ts:55-78 and src/workers/processor.ts:99-122:
consult the cache under the bare URL (any non-empty string counts, `!`
being a falsiness test), else call the AI transform, treating `null`/empty
results as a thrown error, and cache a fresh summary for two weeks.
Returns the try-block outcome together with the store as mutated so far
(the cache write persists even if a later statement of the try block
throws). -/
def generateOrCachedSummary (s : Store) (now : Nat)
    (summarize : String → Except String (Option String)) (url : String) :
    Except String String × Store :=
  let cached :=
    match kvGet s now url with
    | some v => v.asString
    | none => ""
  if cached ≠ "" then (.ok cached, s)
  else
    match summarize url with
    | .error e => (.error e, s)
    | .ok none => (.error "Failed to generate summary (null/undefined returned)", s)
    | .ok (some generated) =>
        if generated = "" then
          (.error "Failed to generate summary (null/undefined returned)", s)
        else
          (.ok generated, kvPut s now url (.str generated) (daysToSeconds 14))

/-- One iteration of the summarizer's job loop
(src/modules/summarizer.ts:33-105).  A job whose `opportunity` field is
missing makes the iteration throw outside any effective catch, so the
whole stage invocation rejects: the skip-path log (line 48) dereferences
`job.opportunity.identifier`, and on the claimed path the try block
throws at its first such log (line 59 or 77, before the AI call or any
cache write) after which the catch block's own `console.error`
(line 100) rethrows before `fail` is reached. -/
def summarizerStep (s : Store) (now : Nat)
    (summarize : String → Except String (Option String)) (maxAttempts : Int)
    (queueKey : String) (st : RunStats) : Except String (Store × RunStats) :=
  match getJob s now queueKey with
  | .error e => .error e
  | .ok none => .ok (s, st)
  | .ok (some job) =>
      match job.url with
      | none => .error "TypeError: job.url is undefined"
      | some url =>
          let st := { st with processed := st.processed + 1 }
          match claim s now url with
          | (false, s) =>
              match job.opportunity with
              | none => .error "TypeError: job.opportunity is undefined"
              | some _ => .ok (s, { st with skipped := st.skipped + 1 })
          | (true, s) =>
              match job.opportunity with
              | none => .error "TypeError: job.opportunity is undefined"
              | some opp =>
                  match generateOrCachedSummary s now summarize url with
                  | (.error errorMsg, s) =>
                      match fail s now queueKey url errorMsg maxAttempts
                          DLQ_SUMMARIZE_PFX with
                      | some s => .ok (s, { st with failed := st.failed + 1 })
                      | none => .error "JSON parse failure"
                  | (.ok summaryText, s) =>
                      let notifyJob : QueueJob :=
                        { attempts := 0, lastAttempt := none, error := none,
                          url := none,
                          opportunity := some { opp with summary := some summaryText },
                          summarized := some (tsString now), enqueued := none }
                      let s := (enqueue s now NOTIFY_QUEUE_PFX url notifyJob).2
                      .ok (complete s queueKey url,
                        { st with succeeded := st.succeeded + 1 })

/-- The summarizer's loop over the pending keys. -/
def summarizerLoop (now : Nat) (summarize : String → Except String (Option String))
    (maxAttempts : Int) :
    List String → Store → RunStats → Except String (Store × RunStats)
  | [], s, st => .ok (s, st)
  | queueKey :: rest, s, st =>
      match summarizerStep s now summarize maxAttempts queueKey st with
      | .error e => .error e
      | .ok (s', st') => summarizerLoop now summarize maxAttempts rest s' st'

/-- `handleSummarizerCron` (src/modules/summarizer.ts:11-115). -/
def handleSummarizerCron (env : Env) (now : Nat)
    (summarize : String → Except String (Option String)) :
    Except String (Store × RunStats) :=
  match env.summaries with
  | none => .error "No SUMMARIES KV namespace binding"
  | some s =>
      let batchSize := env.summarizerBatchSize.getD 5
      let maxAttempts : Int := (env.maxSummarizeAttempts.getD 3 : Nat)
      summarizerLoop now summarize maxAttempts
        (listPending s now SUMMARIZE_QUEUE_PFX batchSize) s .zero

/-! ## Processor worker (src/workers/processor.ts) -/

/-- How the processor's per-batch loop ends: the rate-limit early return
(src/workers/processor.ts:140-149) or normal loop exit with the
batch-error flag. -/
inductive ProcessorOutcome where
  | earlyReturn (s : Store) (st : RunStats)
  | finished (s : Store) (st : RunStats) (batchErr : Option String)
deriving Repr

/-- The try block of one processor loop iteration
(src/workers/processor.ts:97-135): cached-or-generated summary for the
opportunity's link, then the Discord post of the opportunity with the
summary attached. -/
def processorTry (s : Store) (now : Nat)
    (summarize : String → Except String (Option String))
    (post : Opportunity → Except String Unit) (opp : Opportunity) :
    Except String Unit × Store :=
  match generateOrCachedSummary s now summarize opp.link with
  | (.error e, s) => (.error e, s)
  | (.ok summaryText, s) =>
      (post { opp with summary := some summaryText }, s)

/-- The processor's loop over the batch's opportunities
(src/workers/processor.ts:93-158).  `total` is the batch length, used by
the early-return `skipped` accounting. -/
def processorLoop (now : Nat) (summarize : String → Except String (Option String))
    (post : Opportunity → Except String Unit) (batchId : String) (total : Nat) :
    List Opportunity → Store → RunStats → Option String → ProcessorOutcome
  | [], s, st, batchErr => .finished s st batchErr
  | opp :: rest, s, st, batchErr =>
      let st := { st with processed := st.processed + 1 }
      match processorTry s now summarize post opp with
      | (.ok _, s) =>
          processorLoop now summarize post batchId total rest s
            { st with succeeded := st.succeeded + 1 } batchErr
      | (.error errorMsg, s) =>
          if strIncludes errorMsg "rate limit" then
            .earlyReturn (release s batchId)
              { st with skipped := st.skipped + (total - st.processed + 1) }
          else
            processorLoop now summarize post batchId total rest s
              { st with failed := st.failed + 1 } (some errorMsg)

/-- `runOnce` (src/workers/processor.ts:28-181): one batch from the
summarize queue, structural validation, batch claim, the loop, then
complete-or-fail.  The browser acquisition is external and store-neutral
and is not modelled. -/
def runOnce (env : Env) (now : Nat)
    (summarize : String → Except String (Option String))
    (post : Opportunity → Except String Unit) : Except String (Store × RunStats) :=
  match env.summaries with
  | none => .error "No SUMMARIES KV namespace binding"
  | some s =>
      match env.discordWebhookUrl with
      | none => .error "No DISCORD_WEBHOOK_URL environment variable"
      | some _ =>
          let maxAttempts : Int := (env.maxSummarizeAttempts.getD 3 : Nat)
          match listPending s now SUMMARIZE_QUEUE_PFX 1 with
          | [] => .ok (s, .zero)
          | queueKey :: _ =>
              match getBatchJob s now queueKey with
              | .error e => .error e
              | .ok none => .ok (s, .zero)
              | .ok (some batchJob) =>
                  if batchJob.batchId = "" then
                    .error "Invalid job structure - missing batchId"
                  else
                    match claim s now batchJob.batchId with
                    | (false, s) => .ok (s, .zero)
                    | (true, s) =>
                        match processorLoop now summarize post batchJob.batchId
                            batchJob.opportunities.length batchJob.opportunities s
                            .zero none with
                        | .earlyReturn s st => .ok (s, st)
                        | .finished s st batchErr =>
                            match batchErr with
                            | some msg =>
                                match fail s now queueKey batchJob.batchId msg
                                    maxAttempts DLQ_SUMMARIZE_PFX with
                                | some s => .ok (s, st)
                                | none => .error "JSON parse failure"
                            | none => .ok (complete s queueKey batchJob.batchId, st)

/-! ## Store lemmas -/

theorem lookup_eraseKey_self (s : Store) (k : String) :
    (eraseKey s k).lookup k = none := by
  induction s with
  | nil => rfl
  | cons p t ih =>
      by_cases h : p.1 = k
      · simpa [eraseKey, List.filter, h] using ih
      · simp only [eraseKey, List.filter] at ih ⊢
        rw [show (p.1 != k) = true by simpa using h]
        simp [List.lookup, show (k == p.1) = false by simpa using (Ne.symm h), ih]

theorem lookup_eraseKey_ne (s : Store) (k k' : String) (h : k' ≠ k) :
    (eraseKey s k).lookup k' = s.lookup k' := by
  induction s with
  | nil => rfl
  | cons p t ih =>
      by_cases hp : p.1 = k
      · simp only [eraseKey, List.filter] at ih ⊢
        rw [show (p.1 != k) = false by simpa using hp]
        rw [ih]
        have : (k' == p.1) = false := by
          subst hp
          simpa using h
        simp [List.lookup, this]
      · simp only [eraseKey, List.filter] at ih ⊢
        rw [show (p.1 != k) = true by simpa using hp]
        by_cases hk : k' = p.1
        · simp [List.lookup, show (k' == p.1) = true by simpa using hk]
        · simp [List.lookup, show (k' == p.1) = false by simpa using hk, ih]

theorem eraseKey_eraseKey_self (s : Store) (k : String) :
    eraseKey (eraseKey s k) k = eraseKey s k := by
  simp [eraseKey, List.filter_filter]

theorem eraseKey_comm (s : Store) (k k' : String) :
    eraseKey (eraseKey s k) k' = eraseKey (eraseKey s k') k := by
  simp only [eraseKey, List.filter_filter]
  congr 1
  funext p
  exact Bool.and_comm _ _

theorem kvGet_put_self (s : Store) (now t : Nat) (k : String) (v : KVValue) (ttl : Nat) :
    kvGet (kvPut s now k v ttl) t k =
      if t < now + ttl * 1000 then some v else none := by
  simp [kvGet, kvPut, List.lookup]

theorem kvGet_put_ne (s : Store) (now t : Nat) (k k' : String) (v : KVValue) (ttl : Nat)
    (h : k' ≠ k) :
    kvGet (kvPut s now k v ttl) t k' = kvGet s t k' := by
  simp only [kvGet, kvPut, List.lookup, show (k' == k) = false by simpa using h]
  rw [lookup_eraseKey_ne s k k' h]

theorem kvGet_delete_self (s : Store) (t : Nat) (k : String) :
    kvGet (kvDelete s k) t k = none := by
  simp [kvGet, kvDelete, lookup_eraseKey_self]

theorem kvGet_delete_ne (s : Store) (t : Nat) (k k' : String) (h : k' ≠ k) :
    kvGet (kvDelete s k) t k' = kvGet s t k' := by
  simp [kvGet, kvDelete, lookup_eraseKey_ne s k k' h]

/-! ## Claim C5: complete is idempotent -/

/-- C5: for every (entryKey, subject), calling `complete` twice leaves the
store in the same terminal state as calling it once (and never errors —
`complete` is total), with both the queue entry and the subject's lease
key absent. -/
theorem complete_idempotent (s : Store) (queueKey url : String) :
    complete (complete s queueKey url) queueKey url = complete s queueKey url ∧
    (∀ t, kvGet (complete s queueKey url) t queueKey = none) ∧
    (∀ t, kvGet (complete s queueKey url) t (PROCESSING_PFX ++ hashUrl url) = none) := by
  refine ⟨?_, ?_, ?_⟩
  · simp only [complete, kvDelete, eraseKey, List.filter_filter]
    congr 1
    funext p
    cases p.1 != queueKey <;> cases p.1 != PROCESSING_PFX ++ hashUrl url <;> rfl
  · intro t
    show kvGet (kvDelete (kvDelete s queueKey) _) t queueKey = none
    by_cases h : queueKey = PROCESSING_PFX ++ hashUrl url
    · rw [h, kvGet_delete_self]
    · rw [kvGet_delete_ne _ _ _ _ h, kvGet_delete_self]
  · intro t
    exact kvGet_delete_self _ _ _

/-! ## Claim C2: claim is a single-winner check-then-write -/

/-- C2: when no live lease exists for a subject's hash, `claim` returns
`true` and creates the lease; a second `claim` on the same subject while
that lease is still live (within the 15-minute TTL) returns `false` and
leaves the store untouched — of two sequential claims exactly the first
wins. -/
theorem claim_single_winner (s : Store) (now1 now2 : Nat) (url : String)
    (hfree : kvGet s now1 (PROCESSING_PFX ++ hashUrl url) = none)
    (h12 : now1 ≤ now2)
    (hlive : now2 < now1 + minutesToSeconds PROCESSING_TTL_MINUTES * 1000) :
    (claim s now1 url).1 = true ∧
    (claim (claim s now1 url).2 now2 url).1 = false ∧
    (claim (claim s now1 url).2 now2 url).2 = (claim s now1 url).2 := by
  have h1 : claim s now1 url =
      (true, kvPut s now1 (PROCESSING_PFX ++ hashUrl url) (.str (tsString now1))
        (minutesToSeconds PROCESSING_TTL_MINUTES)) := by
    simp [claim, hfree]
  have h2 : kvGet (kvPut s now1 (PROCESSING_PFX ++ hashUrl url) (.str (tsString now1))
      (minutesToSeconds PROCESSING_TTL_MINUTES)) now2 (PROCESSING_PFX ++ hashUrl url) =
      some (.str (tsString now1)) := by
    rw [kvGet_put_self]
    simp [hlive]
  refine ⟨by rw [h1], ?_, ?_⟩ <;> rw [h1] <;> simp [claim, h2]

/-! ## Claim C3: fail on a missing queue entry just releases the lease -/

/-- C3: when the queue key is absent from the store, `fail` returns
normally, deletes only the subject's lease key (every other key reads the
same as before), and a subsequent `claim` on the subject succeeds. -/
theorem fail_missing_entry (s : Store) (now now2 : Nat) (queueKey url err : String)
    (maxAttempts : Int) (dlqPfx : String)
    (habsent : kvGet s now queueKey = none) :
    fail s now queueKey url err maxAttempts dlqPfx =
      some (kvDelete s (PROCESSING_PFX ++ hashUrl url)) ∧
    (∀ t k, k ≠ PROCESSING_PFX ++ hashUrl url →
      kvGet (kvDelete s (PROCESSING_PFX ++ hashUrl url)) t k = kvGet s t k) ∧
    (claim (kvDelete s (PROCESSING_PFX ++ hashUrl url)) now2 url).1 = true := by
  refine ⟨by simp [fail, habsent], fun t k hk => kvGet_delete_ne _ _ _ _ hk, ?_⟩
  simp [claim, kvGet_delete_self]

/-! ## Claim C1: fail increments attempts and retries or dead-letters -/

/-- C1: on an existing queue entry, `fail` increments `attempts` by
exactly one (never decrementing); if the incremented count reaches
`maxAttempts` the entry is deleted from its origin queue and a
dead-letter record keyed by the subject hash under `dlqPfx` holds the
full updated payload, the final attempt count and the supplied error as
`lastError`; otherwise the updated entry (attempts incremented,
`lastAttempt` and `error` set) is written back under the same key and the
lease is released.  The key-distinctness hypotheses say the three key
families involved are distinct, as the `queue:`/`dlq:`/`processing:`
prefixes guarantee in every call site. -/
theorem fail_increments_and_dlq (s : Store) (now : Nat) (queueKey url err : String)
    (maxAttempts : Int) (dlqPfx : String) (j : QueueJob)
    (hjob : kvGet s now queueKey = some (.job j))
    (hqd : queueKey ≠ dlqPfx ++ hashUrl url)
    (hqp : queueKey ≠ PROCESSING_PFX ++ hashUrl url)
    (hdp : dlqPfx ++ hashUrl url ≠ PROCESSING_PFX ++ hashUrl url) :
    ∃ s', fail s now queueKey url err maxAttempts dlqPfx = some s' ∧
      (j.attempts + 1 ≥ maxAttempts →
        kvGet s' now queueKey = none ∧
        kvGet s' now (dlqPfx ++ hashUrl url) = some (.dlqEntry
          { job := { j with attempts := j.attempts + 1, lastAttempt := some (tsString now), error := some err },
            failedAt := tsString now,
            attempts := j.attempts + 1,
            lastError := err }) ∧
        kvGet s' now (PROCESSING_PFX ++ hashUrl url) = none) ∧
      (j.attempts + 1 < maxAttempts →
        kvGet s' now queueKey = some (.job
          { j with attempts := j.attempts + 1, lastAttempt := some (tsString now), error := some err }) ∧
        kvGet s' now (PROCESSING_PFX ++ hashUrl url) = none) := by
  by_cases hge : j.attempts + 1 ≥ maxAttempts
  · refine ⟨kvDelete (kvDelete (kvPut s now (dlqPfx ++ hashUrl url)
        (.dlqEntry
          { job := { j with attempts := j.attempts + 1, lastAttempt := some (tsString now), error := some err },
            failedAt := tsString now,
            attempts := j.attempts + 1,
            lastError := err })
        (daysToSeconds DLQ_TTL_DAYS)) queueKey) (PROCESSING_PFX ++ hashUrl url),
      by simp [fail, hjob, hge], fun _ => ⟨?_, ?_, ?_⟩,
      fun hlt => absurd hge (not_le.mpr hlt)⟩
    · rw [kvGet_delete_ne _ _ _ _ hqp, kvGet_delete_self]
    · rw [kvGet_delete_ne _ _ _ _ hdp,
        kvGet_delete_ne _ _ _ _ (Ne.symm hqd), kvGet_put_self]
      simp [daysToSeconds, DLQ_TTL_DAYS]
    · rw [kvGet_delete_self]
  · refine ⟨kvDelete (kvPut s now queueKey
        (.job { j with attempts := j.attempts + 1, lastAttempt := some (tsString now), error := some err })
        (daysToSeconds QUEUE_TTL_DAYS)) (PROCESSING_PFX ++ hashUrl url),
      by simp [fail, hjob, hge], fun hge' => absurd hge' hge, fun _ => ⟨?_, ?_⟩⟩
    · rw [kvGet_delete_ne _ _ _ _ hqp, kvGet_put_self]
      simp [daysToSeconds, QUEUE_TTL_DAYS]
    · rw [kvGet_delete_self]

set_option maxRecDepth 8000 in
/-- Witness for C2: on the empty store, the first claim of a subject wins
and the second, one millisecond later, loses without touching the
store. -/
theorem claim_single_winner_witness :
    (claim kvEmpty 0 "https://example.com/a").1 = true ∧
    (claim (claim kvEmpty 0 "https://example.com/a").2 1 "https://example.com/a").1 = false ∧
    (claim (claim kvEmpty 0 "https://example.com/a").2 1 "https://example.com/a").2 =
      (claim kvEmpty 0 "https://example.com/a").2 :=
  claim_single_winner kvEmpty 0 1 "https://example.com/a" (by decide) (by decide) (by decide)

set_option maxRecDepth 8000 in
/-- Witness for C3: failing a nonexistent queue key after claiming the
subject releases the lease and a new claim succeeds. -/
theorem fail_missing_entry_witness :
    fail (claim kvEmpty 0 "https://example.com/a").2 1 "queue:notify:0:zzz"
        "https://example.com/a" "boom" 5 DLQ_NOTIFY_PFX =
      some (kvDelete (claim kvEmpty 0 "https://example.com/a").2
        (PROCESSING_PFX ++ hashUrl "https://example.com/a")) ∧
    (∀ t k, k ≠ PROCESSING_PFX ++ hashUrl "https://example.com/a" →
      kvGet (kvDelete (claim kvEmpty 0 "https://example.com/a").2
        (PROCESSING_PFX ++ hashUrl "https://example.com/a")) t k =
      kvGet (claim kvEmpty 0 "https://example.com/a").2 t k) ∧
    (claim (kvDelete (claim kvEmpty 0 "https://example.com/a").2
      (PROCESSING_PFX ++ hashUrl "https://example.com/a")) 2 "https://example.com/a").1 = true :=
  fail_missing_entry (claim kvEmpty 0 "https://example.com/a").2 1 2 "queue:notify:0:zzz"
    "https://example.com/a" "boom" 5 DLQ_NOTIFY_PFX (by decide)

set_option maxRecDepth 8000 in
/-- Witness for C1: a job with zero attempts under `maxAttempts = 1` is
dead-lettered on its first `fail`. -/
theorem fail_increments_and_dlq_witness :
    ∃ s', fail ([("queue:notify:0:k",
        ⟨.job ⟨0, none, none, none, none, none, none⟩, 604800000⟩)] : Store) 5
        "queue:notify:0:k" "https://example.com/a" "boom" 1 DLQ_NOTIFY_PFX = some s' ∧
      ((0 : Int) + 1 ≥ 1 →
        kvGet s' 5 "queue:notify:0:k" = none ∧
        kvGet s' 5 (DLQ_NOTIFY_PFX ++ hashUrl "https://example.com/a") = some (.dlqEntry
          { job := { (⟨0, none, none, none, none, none, none⟩ : QueueJob) with
                attempts := (0 : Int) + 1, lastAttempt := some (tsString 5), error := some "boom" },
            failedAt := tsString 5,
            attempts := (0 : Int) + 1,
            lastError := "boom" }) ∧
        kvGet s' 5 (PROCESSING_PFX ++ hashUrl "https://example.com/a") = none) ∧
      ((0 : Int) + 1 < 1 →
        kvGet s' 5 "queue:notify:0:k" = some (.job
          { (⟨0, none, none, none, none, none, none⟩ : QueueJob) with
            attempts := (0 : Int) + 1, lastAttempt := some (tsString 5), error := some "boom" }) ∧
        kvGet s' 5 (PROCESSING_PFX ++ hashUrl "https://example.com/a") = none) :=
  fail_increments_and_dlq _ 5 "queue:notify:0:k" "https://example.com/a" "boom" 1
    DLQ_NOTIFY_PFX ⟨0, none, none, none, none, none, none⟩
    (by decide) (by decide) (by decide) (by decide)

/-! ## Claim C7: re-marking a seen subject -/

/-- Updating a ledger slot makes it hold the new record. -/
theorem lookup_dbSet_self (db : List (String × SeenRecord)) (k : String) (v : SeenRecord) :
    (dbSet db k v).lookup k = some v := by
  induction db with
  | nil => simp [dbSet, List.lookup]
  | cons p rest ih =>
      by_cases h : p.1 = k
      · simp [dbSet, h, List.lookup]
      · simp only [dbSet, if_neg h]
        simp [List.lookup, show (k == p.1) = false by simpa using (Ne.symm h), ih]

set_option maxRecDepth 8000 in
/-- C7, counterexample: `markSeen` does NOT leave an existing `SeenRecord`
unchanged — re-marking the same subject a day later overwrites the record
with a fresh `firstSeen` timestamp. -/
theorem markSeen_counterexample :
    getSeenRecord (markSeen kvEmpty 0 "u" none "t") 86400000 "u" =
      .ok (some ⟨"u", tsString 0, none, "t"⟩) ∧
    getSeenRecord (markSeen (markSeen kvEmpty 0 "u" none "t") 86400000 "u" none "t")
        86400000 "u" =
      .ok (some ⟨"u", tsString 86400000, none, "t"⟩) ∧
    tsString 0 ≠ tsString 86400000 :=
  ⟨rfl, rfl, by decide⟩

/-- C7, amended: re-marking an already-seen subject does not error and the
subject stays seen, but the stored record is overwritten, its `firstSeen`
refreshed to the time of the latest call — in both the per-subject-key
variant (`markSeen`) and the consolidated-ledger variant
(`markSeenBatch`). -/
theorem markSeen_remarks_overwrite (s : Store) (now1 now2 : Nat) (url : String)
    (id1 id2 : Option String) (t1 t2 : String) (db : List (String × SeenRecord))
    (hlive : now2 < now1 + daysToSeconds SEEN_TTL_DAYS * 1000)
    (hload : Ledger.loadSeenDatabase s now1 = .ok db) :
    getSeenRecord (markSeen (markSeen s now1 url id1 t1) now2 url id2 t2) now2 url =
      .ok (some ⟨url, tsString now2, id2, t2⟩) ∧
    isSeen (markSeen (markSeen s now1 url id1 t1) now2 url id2 t2) now2 url = true ∧
    (∃ s' s'', Ledger.markSeenBatch s now1 [(url, id1, t1)] = .ok s' ∧
      Ledger.markSeenBatch s' now2 [(url, id2, t2)] = .ok s'' ∧
      Ledger.getSeenRecord s'' now2 url = .ok (some ⟨url, tsString now2, id2, t2⟩)) := by
  have hget : kvGet (markSeen (markSeen s now1 url id1 t1) now2 url id2 t2) now2
      (SEEN_PFX ++ hashUrl url) = some (.seenRec ⟨url, tsString now2, id2, t2⟩) := by
    show kvGet (kvPut _ _ _ _ _) _ _ = _
    rw [kvGet_put_self]
    simp [daysToSeconds, SEEN_TTL_DAYS]
  refine ⟨?_, ?_, ?_⟩
  · simp [getSeenRecord, hget]
  · simp [isSeen, hget]
  · have hload2 : Ledger.loadSeenDatabase
        (Ledger.saveSeenDatabase s now1 (dbSet db (hashUrl url) ⟨url, tsString now1, id1, t1⟩))
        now2 = .ok (dbSet db (hashUrl url) ⟨url, tsString now1, id1, t1⟩) := by
      simp only [Ledger.loadSeenDatabase, Ledger.saveSeenDatabase, kvGet_put_self]
      simp [hlive]
    have hload3 : Ledger.loadSeenDatabase
        (Ledger.saveSeenDatabase
          (Ledger.saveSeenDatabase s now1 (dbSet db (hashUrl url) ⟨url, tsString now1, id1, t1⟩))
          now2
          (dbSet (dbSet db (hashUrl url) ⟨url, tsString now1, id1, t1⟩) (hashUrl url)
            ⟨url, tsString now2, id2, t2⟩))
        now2 = .ok (dbSet (dbSet db (hashUrl url) ⟨url, tsString now1, id1, t1⟩) (hashUrl url)
            ⟨url, tsString now2, id2, t2⟩) := by
      simp only [Ledger.loadSeenDatabase, Ledger.saveSeenDatabase, kvGet_put_self]
      simp [daysToSeconds, SEEN_TTL_DAYS]
    refine ⟨Ledger.saveSeenDatabase s now1 (dbSet db (hashUrl url) ⟨url, tsString now1, id1, t1⟩),
      Ledger.saveSeenDatabase
        (Ledger.saveSeenDatabase s now1 (dbSet db (hashUrl url) ⟨url, tsString now1, id1, t1⟩))
        now2
        (dbSet (dbSet db (hashUrl url) ⟨url, tsString now1, id1, t1⟩) (hashUrl url)
          ⟨url, tsString now2, id2, t2⟩),
      by simp [Ledger.markSeenBatch, hload, Except.map],
      by simp [Ledger.markSeenBatch, hload2, Except.map],
      by simp [Ledger.getSeenRecord, hload3, lookup_dbSet_self, Except.map]⟩

set_option maxRecDepth 8000 in
/-- Witness for the amended C7 on the empty store. -/
theorem markSeen_remarks_overwrite_witness :
    getSeenRecord (markSeen (markSeen kvEmpty 0 "u" none "t") 86400000 "u" none "t2")
        86400000 "u" = .ok (some ⟨"u", tsString 86400000, none, "t2"⟩) ∧
    isSeen (markSeen (markSeen kvEmpty 0 "u" none "t") 86400000 "u" none "t2")
        86400000 "u" = true ∧
    (∃ s' s'', Ledger.markSeenBatch kvEmpty 0 [("u", none, "t")] = .ok s' ∧
      Ledger.markSeenBatch s' 86400000 [("u", none, "t2")] = .ok s'' ∧
      Ledger.getSeenRecord s'' 86400000 "u" = .ok (some ⟨"u", tsString 86400000, none, "t2"⟩)) :=
  markSeen_remarks_overwrite kvEmpty 0 86400000 "u" none none "t" "t2" []
    (by decide) rfl

/-! ## Claim C9: hashUrl collisions and their effect -/

/-- `toInt32` lands in `[-2^31, 2^31)`. -/
theorem toInt32_bounds (n : Int) : -2147483648 ≤ toInt32 n ∧ toInt32 n < 2147483648 := by
  have h0 : (0 : Int) ≤ n % 4294967296 := Int.emod_nonneg n (by decide)
  have h1 : n % 4294967296 < 4294967296 := Int.emod_lt_of_pos n (by decide)
  by_cases h : n % 4294967296 < 2147483648
  · rw [show toInt32 n = n % 4294967296 from by simp [toInt32, h]]
    omega
  · rw [show toInt32 n = n % 4294967296 - 4294967296 from by simp [toInt32, h]]
    omega

/-- Every hash-loop state has absolute value at most 2^31. -/
theorem hashFold_natAbs_le (l : List Char) (h : Int) (hh : h.natAbs ≤ 2147483648) :
    (l.foldl (fun h c => hashStep h c.toNat) h).natAbs ≤ 2147483648 := by
  induction l generalizing h with
  | nil => exact hh
  | cons c rest ih =>
      refine ih _ ?_
      have hb := toInt32_bounds (toInt32 (h * 32) - h + (c.toNat : Int))
      show (hashStep h c.toNat).natAbs ≤ 2147483648
      have heq : hashStep h c.toNat = toInt32 (toInt32 (h * 32) - h + (c.toNat : Int)) := rfl
      rw [heq]
      omega

/-- C9: `hashUrl` folds every URL through a signed 32-bit state, so its
image lies in the base-36 renderings of the naturals up to 2^31 and
distinct URLs must collide; at the exhibited pair of distinct URLs the
hashes coincide, so after `markSeen` of the first URL `isSeen` of the
second reports `true`, and a lease claimed for the first blocks a `claim`
of the second. -/
theorem hashUrl_collision :
    (∀ url : String, ∃ n : Nat, n ≤ 2147483648 ∧ hashUrl url = natToBase36 n) ∧
    ("https://example.com/Aa" : String) ≠ "https://example.com/BB" ∧
    hashUrl "https://example.com/Aa" = hashUrl "https://example.com/BB" ∧
    isSeen (markSeen kvEmpty 0 "https://example.com/Aa" none "t") 5
      "https://example.com/BB" = true ∧
    (claim (claim kvEmpty 0 "https://example.com/Aa").2 1 "https://example.com/BB").1 =
      false := by
  refine ⟨fun url => ⟨_, hashFold_natAbs_le url.data 0 (by decide), rfl⟩, ?_, ?_, ?_, ?_⟩
  all_goals set_option maxRecDepth 8000 in decide

/-! ## Claim C10: scheduled invocations never propagate; /run-once surfaces 500 -/

/-- C10: whatever error a handler throws (a structural/config error such
as a missing store binding included), the scheduled entry point built by
`createWorker` catches it and resolves normally, while the manual
`/run-once` fetch path surfaces the same failure as an HTTP 500
response carrying the error message. -/
theorem scheduled_catches_fetch_surfaces {α β : Type} (handler : α → Except String β)
    (a : α) (e : String) (h : handler a = .error e) :
    workerScheduled handler a = .ok () ∧
    workerFetch handler "/run-once" a = ⟨500, "error", e⟩ := by
  constructor <;> simp [workerScheduled, workerFetch, h]

/-- Witness for C10: the notifier stage run against an environment with no
store binding throws its structural error; scheduled swallows it, fetch
answers 500. -/
theorem scheduled_catches_fetch_surfaces_witness :
    workerScheduled (fun env => handleNotifierCron env 0 (fun _ => .ok ()))
      ⟨none, none, none, none, none, none⟩ = .ok () ∧
    workerFetch (fun env => handleNotifierCron env 0 (fun _ => .ok ())) "/run-once"
      ⟨none, none, none, none, none, none⟩ =
      ⟨500, "error", "No SUMMARIES KV namespace binding"⟩ :=
  scheduled_catches_fetch_surfaces (fun env => handleNotifierCron env 0 (fun _ => .ok ()))
    ⟨none, none, none, none, none, none⟩ "No SUMMARIES KV namespace binding" rfl

/-! ## Claim C6: rate-limited deliveries release the lease without burning an attempt -/

/-- Deleting a key right after putting it restores the deleted-key
state. -/
theorem kvDelete_put_self (s : Store) (now : Nat) (k : String) (v : KVValue) (ttl : Nat) :
    kvDelete (kvPut s now k v ttl) k = kvDelete s k := by
  show eraseKey ((k, ⟨v, now + ttl * 1000⟩) :: eraseKey s k) k = eraseKey s k
  simp only [eraseKey, List.filter]
  rw [show (k != k) = false by simp]
  exact eraseKey_eraseKey_self s k

/-- The cache-or-generate block touches no key other than the bare URL. -/
theorem generateOrCachedSummary_frame (s : Store) (now : Nat)
    (summarize : String → Except String (Option String)) (url : String)
    (t : Nat) (k : String) (hk : k ≠ url) :
    kvGet (generateOrCachedSummary s now summarize url).2 t k = kvGet s t k := by
  cases hget : kvGet s now url with
  | some v =>
      by_cases hc : v.asString = ""
      · cases hsm : summarize url with
        | error e => simp [generateOrCachedSummary, hget, hc, hsm]
        | ok g =>
            cases g with
            | none => simp [generateOrCachedSummary, hget, hc, hsm]
            | some txt =>
                by_cases hemp : txt = ""
                · simp [generateOrCachedSummary, hget, hc, hsm, hemp]
                · simp [generateOrCachedSummary, hget, hc, hsm, hemp,
                    kvGet_put_ne _ _ _ _ _ _ _ hk]
      · simp [generateOrCachedSummary, hget, hc]
  | none =>
      cases hsm : summarize url with
      | error e => simp [generateOrCachedSummary, hget, hsm]
      | ok g =>
          cases g with
          | none => simp [generateOrCachedSummary, hget, hsm]
          | some txt =>
              by_cases hemp : txt = ""
              · simp [generateOrCachedSummary, hget, hsm, hemp]
              · simp [generateOrCachedSummary, hget, hsm, hemp,
                  kvGet_put_ne _ _ _ _ _ _ _ hk]

/-- C6: a delivery attempt that throws a rate-limit-marked error makes the
stage runner release the lease instead of calling `fail`: in the
notifier's job loop the step returns normally with the store equal to the
original minus the lease key (so the queue entry, its `attempts` counter
included, is untouched), and in the processor's batch loop the iteration
early-returns having only released the batch lease (beyond the summary
cache write under the bare URL, which never touches a queue key). -/
theorem rate_limit_releases_without_fail (s : Store) (now : Nat) (st : RunStats)
    (msg : String) (hrl : strIncludes msg "rate limit" = true) :
    (∀ (post : Opportunity → Except String Unit) (maxAttempts : Int) (queueKey : String)
       (j : QueueJob) (opp : Opportunity),
       kvGet s now queueKey = some (.job j) →
       j.opportunity = some opp →
       kvGet s now (PROCESSING_PFX ++ hashUrl opp.link) = none →
       post opp = .error msg →
       notifierStep s now post maxAttempts queueKey st =
         .ok (kvDelete s (PROCESSING_PFX ++ hashUrl opp.link),
           { st with processed := st.processed + 1, skipped := st.skipped + 1 }) ∧
       kvGet (kvDelete s (PROCESSING_PFX ++ hashUrl opp.link)) now queueKey =
         some (.job j) ∧
       (∀ t k, k ≠ PROCESSING_PFX ++ hashUrl opp.link →
         kvGet (kvDelete s (PROCESSING_PFX ++ hashUrl opp.link)) t k = kvGet s t k)) ∧
    (∀ (summarize : String → Except String (Option String))
       (post : Opportunity → Except String Unit) (batchId : String) (total : Nat)
       (rest : List Opportunity) (opp : Opportunity) (txt : String) (s₂ : Store)
       (batchErr : Option String),
       generateOrCachedSummary s now summarize opp.link = (.ok txt, s₂) →
       post { opp with summary := some txt } = .error msg →
       processorLoop now summarize post batchId total (opp :: rest) s st batchErr =
         .earlyReturn (release s₂ batchId)
           { st with processed := st.processed + 1, skipped := st.skipped + (total - (st.processed + 1) + 1) } ∧
       (∀ t k, k ≠ opp.link → k ≠ PROCESSING_PFX ++ hashUrl batchId →
         kvGet (release s₂ batchId) t k = kvGet s t k)) := by
  constructor
  · intro post maxAttempts queueKey j opp hjob hopp hfree hpost
    have hne : queueKey ≠ PROCESSING_PFX ++ hashUrl opp.link := by
      intro he
      rw [he, hfree] at hjob
      exact Option.noConfusion hjob
    have hstep : notifierStep s now post maxAttempts queueKey st =
        .ok (kvDelete s (PROCESSING_PFX ++ hashUrl opp.link),
          { st with processed := st.processed + 1, skipped := st.skipped + 1 }) := by
      simp only [notifierStep, getJob, hjob, hopp, claim, hfree, hpost, hrl, if_true,
        release, kvDelete_put_self]
    refine ⟨hstep, ?_, fun t k hk => kvGet_delete_ne _ _ _ _ hk⟩
    rw [kvGet_delete_ne _ _ _ _ hne]
    exact hjob
  · intro summarize post batchId total rest opp txt s₂ batchErr hsum hpost
    have hloop : processorLoop now summarize post batchId total (opp :: rest) s st batchErr =
        .earlyReturn (release s₂ batchId)
          { st with processed := st.processed + 1, skipped := st.skipped + (total - (st.processed + 1) + 1) } := by
      simp only [processorLoop, processorTry, hsum, hpost, hrl, if_true]
    refine ⟨hloop, fun t k hurl hlease => ?_⟩
    have hs₂ : s₂ = (generateOrCachedSummary s now summarize opp.link).2 := by
      rw [hsum]
    rw [release, kvGet_delete_ne _ _ _ _ hlease, hs₂,
      generateOrCachedSummary_frame _ _ _ _ _ _ hurl]

/-- Concrete opportunity for the C6 witness. -/
def oppW : Opportunity :=
  ⟨"T", "https://example.com/a", none, none, none, none, none, none, none, none, none⟩

/-- Concrete notify job for the C6 witness. -/
def jobW : QueueJob := ⟨0, none, none, none, some oppW, none, none⟩

/-- Concrete store for the C6 witness: one pending notify job. -/
def storeW : Store := [("queue:notify:0:k", ⟨.job jobW, 604800000⟩)]

set_option maxRecDepth 8000 in
/-- Witness for C6: a rate-limited Discord post leaves the queue entry
untouched in both runners, releasing only the lease. -/
theorem rate_limit_releases_without_fail_witness :
    (notifierStep storeW 5 (fun _ => .error "Discord rate limit hit") 5 "queue:notify:0:k"
        ⟨0, 0, 0, 0⟩ =
      .ok (kvDelete storeW (PROCESSING_PFX ++ hashUrl "https://example.com/a"),
        ⟨1, 0, 0, 1⟩) ∧
     kvGet (kvDelete storeW (PROCESSING_PFX ++ hashUrl "https://example.com/a")) 5
        "queue:notify:0:k" = some (.job jobW) ∧
     (∀ t k, k ≠ PROCESSING_PFX ++ hashUrl "https://example.com/a" →
       kvGet (kvDelete storeW (PROCESSING_PFX ++ hashUrl "https://example.com/a")) t k =
         kvGet storeW t k)) ∧
    (processorLoop 5 (fun _ => .ok (some "sum")) (fun _ => .error "Discord rate limit hit")
        "batch-1-0" 1 [oppW] storeW ⟨0, 0, 0, 0⟩ none =
      .earlyReturn
        (release (kvPut storeW 5 "https://example.com/a" (.str "sum") (daysToSeconds 14))
          "batch-1-0")
        ⟨1, 0, 0, 1⟩ ∧
     (∀ t k, k ≠ "https://example.com/a" → k ≠ PROCESSING_PFX ++ hashUrl "batch-1-0" →
       kvGet (release (kvPut storeW 5 "https://example.com/a" (.str "sum")
         (daysToSeconds 14)) "batch-1-0") t k = kvGet storeW t k)) :=
  have h := rate_limit_releases_without_fail storeW 5 ⟨0, 0, 0, 0⟩
    "Discord rate limit hit" (by decide)
  ⟨h.1 (fun _ => .error "Discord rate limit hit") 5 "queue:notify:0:k" jobW oppW
      rfl rfl (by decide) rfl,
   h.2 (fun _ => .ok (some "sum")) (fun _ => .error "Discord rate limit hit") "batch-1-0"
      1 [] oppW "sum" (kvPut storeW 5 "https://example.com/a" (.str "sum")
        (daysToSeconds 14)) none rfl rfl⟩

/-! ## Claim C8: per-job failures never abort the stage invocation -/

/-- Two strings neither of which starts with the other head no common
extensions: `p` is not a prefix of `q ++ x`. -/
theorem strStartsWith_append_false (p q x : String)
    (h1 : strStartsWith p q = false) (h2 : strStartsWith q p = false) :
    strStartsWith p (q ++ x) = false := by
  unfold strStartsWith at *
  rw [String.data_append]
  by_contra hcon
  have hpre : p.data <+: q.data ++ x.data :=
    List.isPrefixOf_iff_prefix.mp (by simpa using hcon)
  rcases List.prefix_or_prefix_of_prefix hpre (List.prefix_append q.data x.data) with
    hpq | hqp
  · rw [List.isPrefixOf_iff_prefix.mpr hpq] at h1
    exact Bool.noConfusion h1
  · rw [List.isPrefixOf_iff_prefix.mpr hqp] at h2
    exact Bool.noConfusion h2

/-- The live values under a queue prefix are well-typed jobs satisfying
`P`. This is the well-formedness that every writer of those keys
establishes and that makes the JSON casts of the readers sound. -/
def QueueTyped (pfx : String) (P : QueueJob → Prop) (s : Store) (now : Nat) : Prop :=
  ∀ k v, strStartsWith pfx k = true → kvGet s now k = some v → ∃ j, v = .job j ∧ P j

theorem QueueTyped_delete {pfx P s now} (x : String)
    (h : QueueTyped pfx P s now) : QueueTyped pfx P (kvDelete s x) now := by
  intro k v hk hv
  by_cases hkx : k = x
  · rw [hkx, kvGet_delete_self] at hv
    exact Option.noConfusion hv
  · rw [kvGet_delete_ne _ _ _ _ hkx] at hv
    exact h k v hk hv

theorem QueueTyped_put_off {pfx P s now} (now' : Nat) (x : String) (v : KVValue) (ttl : Nat)
    (hx : strStartsWith pfx x = false) (h : QueueTyped pfx P s now) :
    QueueTyped pfx P (kvPut s now' x v ttl) now := by
  intro k w hk hw
  by_cases hkx : k = x
  · rw [hkx] at hk
    rw [hk] at hx
    exact Bool.noConfusion hx
  · rw [kvGet_put_ne _ _ _ _ _ _ _ hkx] at hw
    exact h k w hk hw

theorem QueueTyped_put_job {pfx P s now} (now' : Nat) (x : String) (j : QueueJob) (ttl : Nat)
    (hj : P j) (h : QueueTyped pfx P s now) :
    QueueTyped pfx P (kvPut s now' x (.job j) ttl) now := by
  intro k w hk hw
  by_cases hkx : k = x
  · subst hkx
    rw [kvGet_put_self] at hw
    by_cases ht : now < now' + ttl * 1000
    · rw [if_pos ht] at hw
      exact ⟨j, (Option.some.injEq _ _ ▸ hw).symm ▸ rfl, hj⟩
    · rw [if_neg ht] at hw
      exact Option.noConfusion hw
  · rw [kvGet_put_ne _ _ _ _ _ _ _ hkx] at hw
    exact h k w hk hw

/-- With a well-typed queue, `fail` never throws and preserves the
typing. -/
theorem fail_typed {pfx P s now} (qk url err : String) (maxA : Int) (dlqPfx : String)
    (hty : QueueTyped pfx P s now)
    (hqk : strStartsWith pfx qk = true)
    (hdlq : strStartsWith pfx (dlqPfx ++ hashUrl url) = false)
    (hupd : ∀ j e, P j →
      P { j with attempts := j.attempts + 1, lastAttempt := some (tsString now), error := some e }) :
    ∃ s', fail s now qk url err maxA dlqPfx = some s' ∧ QueueTyped pfx P s' now := by
  cases hget : kvGet s now qk with
  | none =>
      exact ⟨kvDelete s (PROCESSING_PFX ++ hashUrl url), by simp [fail, hget],
        QueueTyped_delete _ hty⟩
  | some v =>
      obtain ⟨j, rfl, hj⟩ := hty qk v hqk hget
      by_cases hge : j.attempts + 1 ≥ maxA
      · refine ⟨kvDelete (kvDelete (kvPut s now (dlqPfx ++ hashUrl url)
            (.dlqEntry
              { job := { j with attempts := j.attempts + 1, lastAttempt := some (tsString now), error := some err },
                failedAt := tsString now,
                attempts := j.attempts + 1,
                lastError := err })
            (daysToSeconds DLQ_TTL_DAYS)) qk) (PROCESSING_PFX ++ hashUrl url),
          by simp [fail, hget, hge], ?_⟩
        exact QueueTyped_delete _ (QueueTyped_delete _
          (QueueTyped_put_off _ _ _ _ hdlq hty))
      · refine ⟨kvDelete (kvPut s now qk
            (.job { j with attempts := j.attempts + 1, lastAttempt := some (tsString now), error := some err })
            (daysToSeconds QUEUE_TTL_DAYS)) (PROCESSING_PFX ++ hashUrl url),
          by simp [fail, hget, hge], ?_⟩
        exact QueueTyped_delete _ (QueueTyped_put_job _ _ _ _ (hupd j err hj) hty)

/-- Notify-queue entries hold an opportunity (true of every `NotifyJob`
the summarizer enqueues). -/
def NotifyJobOk (j : QueueJob) : Prop := j.opportunity.isSome = true

/-- Summarize-queue entries hold a subject URL that is a plain URL (not a
key under the queue's own prefix) and an opportunity, as every
`SummarizeJob` the discovery stage enqueues does; a job missing either
field makes the real summarizer invocation reject with a TypeError. -/
def SummarizeJobOk (j : QueueJob) : Prop :=
  (∃ u, j.url = some u ∧ strStartsWith SUMMARIZE_QUEUE_PFX u = false) ∧
  j.opportunity.isSome = true

theorem notify_off_processing (x : String) :
    strStartsWith NOTIFY_QUEUE_PFX (PROCESSING_PFX ++ x) = false :=
  strStartsWith_append_false _ _ x (by decide) (by decide)

theorem notify_off_dlq (x : String) :
    strStartsWith NOTIFY_QUEUE_PFX (DLQ_NOTIFY_PFX ++ x) = false :=
  strStartsWith_append_false _ _ x (by decide) (by decide)

theorem summarize_off_processing (x : String) :
    strStartsWith SUMMARIZE_QUEUE_PFX (PROCESSING_PFX ++ x) = false :=
  strStartsWith_append_false _ _ x (by decide) (by decide)

theorem summarize_off_dlq (x : String) :
    strStartsWith SUMMARIZE_QUEUE_PFX (DLQ_SUMMARIZE_PFX ++ x) = false :=
  strStartsWith_append_false _ _ x (by decide) (by decide)

theorem summarize_off_notify (x : String) :
    strStartsWith SUMMARIZE_QUEUE_PFX (NOTIFY_QUEUE_PFX ++ x) = false :=
  strStartsWith_append_false _ _ x (by decide) (by decide)

/-- One notifier iteration on a well-typed notify queue always returns
normally (whatever `post` does) and keeps the queue well-typed. -/
theorem notifierStep_ok (s : Store) (now : Nat) (post : Opportunity → Except String Unit)
    (maxA : Int) (qk : String) (st : RunStats)
    (hty : QueueTyped NOTIFY_QUEUE_PFX NotifyJobOk s now)
    (hqk : strStartsWith NOTIFY_QUEUE_PFX qk = true) :
    ∃ s' st', notifierStep s now post maxA qk st = .ok (s', st') ∧
      QueueTyped NOTIFY_QUEUE_PFX NotifyJobOk s' now := by
  cases hget : kvGet s now qk with
  | none => exact ⟨s, st, by simp [notifierStep, getJob, hget], hty⟩
  | some v =>
      obtain ⟨j, rfl, hopp⟩ := hty qk v hqk hget
      obtain ⟨opp, hopp'⟩ := Option.isSome_iff_exists.mp hopp
      cases hlease : kvGet s now (PROCESSING_PFX ++ hashUrl opp.link) with
      | some lv =>
          exact ⟨s, { st with processed := st.processed + 1, skipped := st.skipped + 1 },
            by simp [notifierStep, getJob, hget, hopp', claim, hlease], hty⟩
      | none =>
          have hty1 : QueueTyped NOTIFY_QUEUE_PFX NotifyJobOk
              (kvPut s now (PROCESSING_PFX ++ hashUrl opp.link) (.str (tsString now))
                (minutesToSeconds PROCESSING_TTL_MINUTES)) now :=
            QueueTyped_put_off _ _ _ _ (notify_off_processing _) hty
          cases hpost : post opp with
          | ok u =>
              refine ⟨complete (kvPut s now (PROCESSING_PFX ++ hashUrl opp.link)
                  (.str (tsString now)) (minutesToSeconds PROCESSING_TTL_MINUTES)) qk
                  opp.link,
                { st with processed := st.processed + 1, succeeded := st.succeeded + 1 },
                by simp [notifierStep, getJob, hget, hopp', claim, hlease, hpost], ?_⟩
              exact QueueTyped_delete _ (QueueTyped_delete _ hty1)
          | error msg =>
              by_cases hrl : strIncludes msg "rate limit" = true
              · refine ⟨release (kvPut s now (PROCESSING_PFX ++ hashUrl opp.link)
                    (.str (tsString now)) (minutesToSeconds PROCESSING_TTL_MINUTES))
                    opp.link,
                  { st with processed := st.processed + 1, skipped := st.skipped + 1 },
                  by simp [notifierStep, getJob, hget, hopp', claim, hlease, hpost, hrl], ?_⟩
                exact QueueTyped_delete _ hty1
              · obtain ⟨s₂, hfail, hty₂⟩ := fail_typed qk opp.link msg maxA
                  DLQ_NOTIFY_PFX hty1 hqk (notify_off_dlq _)
                  (fun j e hj => hj)
                refine ⟨s₂, { st with processed := st.processed + 1, failed := st.failed + 1 },
                  by simp [notifierStep, getJob, hget, hopp', claim, hlease, hpost, hrl,
                    hfail], hty₂⟩

/-- A string starting with `q` cannot also start with an incomparable
`p`. -/
theorem strStartsWith_disjoint (p q k : String)
    (h1 : strStartsWith p q = false) (h2 : strStartsWith q p = false)
    (hk : strStartsWith q k = true) : strStartsWith p k = false := by
  unfold strStartsWith at *
  by_contra hcon
  rcases List.prefix_or_prefix_of_prefix
      (List.isPrefixOf_iff_prefix.mp (by simpa using hcon))
      (List.isPrefixOf_iff_prefix.mp hk) with hpq | hqp
  · rw [List.isPrefixOf_iff_prefix.mpr hpq] at h1
    exact Bool.noConfusion h1
  · rw [List.isPrefixOf_iff_prefix.mpr hqp] at h2
    exact Bool.noConfusion h2

/-- Keys built by `enqueue` carry their queue prefix. -/
theorem enqueueKey_has_pfx (pfx : String) (now : Nat) (url : String) :
    strStartsWith pfx (pfx ++ decRepr now ++ ":" ++ hashUrl url) = true := by
  unfold strStartsWith
  apply List.isPrefixOf_iff_prefix.mpr
  simp only [String.data_append, List.append_assoc]
  exact List.prefix_append _ _

/-- The cache-or-generate block leaves the store alone or writes the one
cache entry under the bare URL. -/
theorem generateOrCachedSummary_snd_cases (s : Store) (now : Nat)
    (summarize : String → Except String (Option String)) (url : String) :
    (generateOrCachedSummary s now summarize url).2 = s ∨
    ∃ txt, (generateOrCachedSummary s now summarize url).2 =
      kvPut s now url (.str txt) (daysToSeconds 14) := by
  cases hget : kvGet s now url with
  | some v =>
      by_cases hc : v.asString = ""
      · cases hsm : summarize url with
        | error e => left; simp [generateOrCachedSummary, hget, hc, hsm]
        | ok g =>
            cases g with
            | none => left; simp [generateOrCachedSummary, hget, hc, hsm]
            | some txt =>
                by_cases hemp : txt = ""
                · left; simp [generateOrCachedSummary, hget, hc, hsm, hemp]
                · right; exact ⟨txt, by simp [generateOrCachedSummary, hget, hc, hsm, hemp]⟩
      · left; simp [generateOrCachedSummary, hget, hc]
  | none =>
      cases hsm : summarize url with
      | error e => left; simp [generateOrCachedSummary, hget, hsm]
      | ok g =>
          cases g with
          | none => left; simp [generateOrCachedSummary, hget, hsm]
          | some txt =>
              by_cases hemp : txt = ""
              · left; simp [generateOrCachedSummary, hget, hsm, hemp]
              · right; exact ⟨txt, by simp [generateOrCachedSummary, hget, hsm, hemp]⟩

/-- One summarizer iteration on a well-typed summarize queue always
returns normally (whatever the AI transform does) and keeps the queue
well-typed. -/
theorem summarizerStep_ok (s : Store) (now : Nat)
    (summarize : String → Except String (Option String)) (maxA : Int) (qk : String)
    (st : RunStats)
    (hty : QueueTyped SUMMARIZE_QUEUE_PFX SummarizeJobOk s now)
    (hqk : strStartsWith SUMMARIZE_QUEUE_PFX qk = true) :
    ∃ s' st', summarizerStep s now summarize maxA qk st = .ok (s', st') ∧
      QueueTyped SUMMARIZE_QUEUE_PFX SummarizeJobOk s' now := by
  cases hget : kvGet s now qk with
  | none => exact ⟨s, st, by simp [summarizerStep, getJob, hget], hty⟩
  | some v =>
      obtain ⟨j, rfl, hjob⟩ := hty qk v hqk hget
      obtain ⟨⟨url, hurl, hupfx⟩, hoppSome⟩ := hjob
      obtain ⟨opp, hopp'⟩ := Option.isSome_iff_exists.mp hoppSome
      cases hlease : kvGet s now (PROCESSING_PFX ++ hashUrl url) with
      | some lv =>
          exact ⟨s, { st with processed := st.processed + 1, skipped := st.skipped + 1 },
            by simp [summarizerStep, getJob, hget, hurl, claim, hlease, hopp'], hty⟩
      | none =>
          set s₁ := kvPut s now (PROCESSING_PFX ++ hashUrl url) (.str (tsString now))
            (minutesToSeconds PROCESSING_TTL_MINUTES) with hs₁
          have hty1 : QueueTyped SUMMARIZE_QUEUE_PFX SummarizeJobOk s₁ now :=
            QueueTyped_put_off _ _ _ _ (summarize_off_processing _) hty
          rcases hgen : generateOrCachedSummary s₁ now summarize url with ⟨res, s₂⟩
          have hty2 : QueueTyped SUMMARIZE_QUEUE_PFX SummarizeJobOk s₂ now := by
            have hc := generateOrCachedSummary_snd_cases s₁ now summarize url
            rw [hgen] at hc
            rcases hc with hc | ⟨txt, hc⟩
            · rw [show s₂ = s₁ from hc]; exact hty1
            · rw [show s₂ = kvPut s₁ now url (.str txt) (daysToSeconds 14) from hc]
              exact QueueTyped_put_off _ _ _ _ hupfx hty1
          cases res with
          | error msg =>
              obtain ⟨s₃, hfail, hty₃⟩ := fail_typed qk url msg maxA
                DLQ_SUMMARIZE_PFX hty2 hqk (summarize_off_dlq _) (fun j e hj => hj)
              exact ⟨s₃, { st with processed := st.processed + 1, failed := st.failed + 1 },
                by simp [summarizerStep, getJob, hget, hurl, claim, hlease, hopp', hgen,
                  hfail], hty₃⟩
          | ok txt =>
              have htyE : QueueTyped SUMMARIZE_QUEUE_PFX SummarizeJobOk
                  (enqueue s₂ now NOTIFY_QUEUE_PFX url
                    { attempts := 0, lastAttempt := none, error := none, url := none,
                      opportunity := some { opp with summary := some txt },
                      summarized := some (tsString now), enqueued := none }).2 now := by
                apply QueueTyped_put_off
                · exact strStartsWith_disjoint _ _ _ (by decide) (by decide)
                    (enqueueKey_has_pfx NOTIFY_QUEUE_PFX now url)
                · exact hty2
              refine ⟨complete (enqueue s₂ now NOTIFY_QUEUE_PFX url
                  { attempts := 0, lastAttempt := none, error := none, url := none,
                    opportunity := some { opp with summary := some txt },
                    summarized := some (tsString now), enqueued := none }).2 qk url,
                { st with processed := st.processed + 1, succeeded := st.succeeded + 1 },
                by simp [summarizerStep, getJob, hget, hurl, claim, hlease, hopp', hgen],
                QueueTyped_delete _ (QueueTyped_delete _ htyE)⟩

/-- The notifier loop returns normally on a well-typed queue, whatever the
per-job outcomes are. -/
theorem notifierLoop_ok (now : Nat) (post : Opportunity → Except String Unit) (maxA : Int) :
    ∀ (keys : List String) (s : Store) (st : RunStats),
    QueueTyped NOTIFY_QUEUE_PFX NotifyJobOk s now →
    (∀ k, k ∈ keys → strStartsWith NOTIFY_QUEUE_PFX k = true) →
    ∃ r, notifierLoop now post maxA keys s st = .ok r
  | [], s, st, _, _ => ⟨(s, st), rfl⟩
  | k :: rest, s, st, hty, hkeys => by
      obtain ⟨s', st', hstep, hty'⟩ :=
        notifierStep_ok s now post maxA k st hty (hkeys k (List.mem_cons_self _ _))
      obtain ⟨r, hr⟩ := notifierLoop_ok now post maxA rest s' st' hty'
        (fun k' hk' => hkeys k' (List.mem_cons_of_mem _ hk'))
      exact ⟨r, by simp [notifierLoop, hstep, hr]⟩

/-- The summarizer loop returns normally on a well-typed queue. -/
theorem summarizerLoop_ok (now : Nat) (summarize : String → Except String (Option String))
    (maxA : Int) :
    ∀ (keys : List String) (s : Store) (st : RunStats),
    QueueTyped SUMMARIZE_QUEUE_PFX SummarizeJobOk s now →
    (∀ k, k ∈ keys → strStartsWith SUMMARIZE_QUEUE_PFX k = true) →
    ∃ r, summarizerLoop now summarize maxA keys s st = .ok r
  | [], s, st, _, _ => ⟨(s, st), rfl⟩
  | k :: rest, s, st, hty, hkeys => by
      obtain ⟨s', st', hstep, hty'⟩ :=
        summarizerStep_ok s now summarize maxA k st hty (hkeys k (List.mem_cons_self _ _))
      obtain ⟨r, hr⟩ := summarizerLoop_ok now summarize maxA rest s' st' hty'
        (fun k' hk' => hkeys k' (List.mem_cons_of_mem _ hk'))
      exact ⟨r, by simp [summarizerLoop, hstep, hr]⟩

/-- Every key `listPending` returns carries the queue prefix. -/
theorem listPending_mem_pfx (s : Store) (now : Nat) (pfx : String) (limit : Nat)
    (k : String) (hk : k ∈ listPending s now pfx limit) :
    strStartsWith pfx k = true := by
  unfold listPending at hk
  have hk1 : k ∈ kvList s now pfx limit := (List.mergeSort_perm _ _).mem_iff.mp hk
  unfold kvList at hk1
  have hk2 := List.take_subset _ _ hk1
  have hk3 := (List.mergeSort_perm _ _).mem_iff.mp hk2
  obtain ⟨p, hp, hpk⟩ := List.mem_map.mp hk3
  obtain ⟨-, hpred⟩ := List.mem_filter.mp hp
  rw [← hpk]
  exact (Bool.and_eq_true _ _ |>.mp hpred).1

/-- C8: an exception thrown while processing one job is caught at the
per-job boundary (routed to `fail` or `release`), processing continues
with the remaining pending items, and the stage invocation itself
resolves normally — for both the notifier and the summarizer, given their
queues hold well-typed jobs (which is what every writer of those queues
enqueues). -/
theorem stage_runner_isolates_job_failures (now : Nat)
    (post : Opportunity → Except String Unit)
    (summarize : String → Except String (Option String)) :
    (∀ (env : Env) (s : Store) (w : String),
       env.summaries = some s → env.discordWebhookUrl = some w →
       QueueTyped NOTIFY_QUEUE_PFX NotifyJobOk s now →
       ∃ r, handleNotifierCron env now post = .ok r) ∧
    (∀ (s : Store) (st : RunStats) (maxA : Int) (qk : String) (rest : List String),
       QueueTyped NOTIFY_QUEUE_PFX NotifyJobOk s now →
       strStartsWith NOTIFY_QUEUE_PFX qk = true →
       ∃ s' st', notifierStep s now post maxA qk st = .ok (s', st') ∧
         notifierLoop now post maxA (qk :: rest) s st =
           notifierLoop now post maxA rest s' st') ∧
    (∀ (env : Env) (s : Store),
       env.summaries = some s →
       QueueTyped SUMMARIZE_QUEUE_PFX SummarizeJobOk s now →
       ∃ r, handleSummarizerCron env now summarize = .ok r) ∧
    (∀ (s : Store) (st : RunStats) (maxA : Int) (qk : String) (rest : List String),
       QueueTyped SUMMARIZE_QUEUE_PFX SummarizeJobOk s now →
       strStartsWith SUMMARIZE_QUEUE_PFX qk = true →
       ∃ s' st', summarizerStep s now summarize maxA qk st = .ok (s', st') ∧
         summarizerLoop now summarize maxA (qk :: rest) s st =
           summarizerLoop now summarize maxA rest s' st') := by
  refine ⟨?_, ?_, ?_, ?_⟩
  · intro env s w hs hw hty
    obtain ⟨r, hr⟩ := notifierLoop_ok now post ((env.maxNotifyAttempts.getD 5 : Nat) : Int)
      (listPending s now NOTIFY_QUEUE_PFX (env.notifierBatchSize.getD 10)) s .zero hty
      (fun k hk => listPending_mem_pfx s now NOTIFY_QUEUE_PFX _ k hk)
    exact ⟨r, by simp [handleNotifierCron, hs, hw, hr]⟩
  · intro s st maxA qk rest hty hqk
    obtain ⟨s', st', hstep, hty'⟩ := notifierStep_ok s now post maxA qk st hty hqk
    exact ⟨s', st', hstep, by simp [notifierLoop, hstep]⟩
  · intro env s hs hty
    obtain ⟨r, hr⟩ := summarizerLoop_ok now summarize
      ((env.maxSummarizeAttempts.getD 3 : Nat) : Int)
      (listPending s now SUMMARIZE_QUEUE_PFX (env.summarizerBatchSize.getD 5)) s .zero hty
      (fun k hk => listPending_mem_pfx s now SUMMARIZE_QUEUE_PFX _ k hk)
    exact ⟨r, by simp [handleSummarizerCron, hs, hr]⟩
  · intro s st maxA qk rest hty hqk
    obtain ⟨s', st', hstep, hty'⟩ := summarizerStep_ok s now summarize maxA qk st hty hqk
    exact ⟨s', st', hstep, by simp [summarizerLoop, hstep]⟩

/-! ## Claim C4: chronological listing of timestamp-prefixed keys -/

/-- With enough fuel, `decDigitsRev` is the little-endian decimal digit
expansion. -/
theorem decDigitsRev_eq_digits : ∀ fuel n : Nat, n ≤ fuel →
    decDigitsRev fuel n = Nat.digits 10 n := by
  intro fuel
  induction fuel with
  | zero =>
      intro n hn
      interval_cases n
      simp [decDigitsRev, Nat.digits_zero]
  | succ fuel ih =>
      intro n hn
      by_cases h0 : n = 0
      · subst h0
        simp [decDigitsRev, Nat.digits_zero]
      · have hdiv : n / 10 ≤ fuel := by
          have : n / 10 < n := Nat.div_lt_self (Nat.pos_of_ne_zero h0) (by omega)
          omega
        show (if n = 0 then [] else n % 10 :: decDigitsRev fuel (n / 10)) = _
        rw [if_neg h0, ih _ hdiv, Nat.digits_def' (by omega : 1 < 10) (Nat.pos_of_ne_zero h0)]

/-- Value of a big-endian digit list. -/
def valBE : List Nat → Nat
  | [] => 0
  | d :: ds => d * 10 ^ ds.length + valBE ds

theorem valBE_lt (ds : List Nat) (h : ∀ d ∈ ds, d < 10) : valBE ds < 10 ^ ds.length := by
  induction ds with
  | nil => simp [valBE]
  | cons d ds ih =>
      have hd : d < 10 := h d (List.mem_cons_self _ _)
      have hds := ih (fun x hx => h x (List.mem_cons_of_mem _ hx))
      have h1 : d * 10 ^ ds.length + valBE ds < (d + 1) * 10 ^ ds.length := by
        rw [Nat.add_mul, Nat.one_mul]
        omega
      have h2 : (d + 1) * 10 ^ ds.length ≤ 10 * 10 ^ ds.length :=
        Nat.mul_le_mul_right _ (by omega)
      calc valBE (d :: ds) = d * 10 ^ ds.length + valBE ds := rfl
        _ < (d + 1) * 10 ^ ds.length := h1
        _ ≤ 10 * 10 ^ ds.length := h2
        _ = 10 ^ (d :: ds).length := by rw [List.length_cons, pow_succ, Nat.mul_comm]

theorem valBE_append_single (ds : List Nat) (d : Nat) :
    valBE (ds ++ [d]) = 10 * valBE ds + d := by
  induction ds with
  | nil => simp [valBE]
  | cons a ds ih =>
      show a * 10 ^ (ds ++ [d]).length + valBE (ds ++ [d]) = _
      rw [ih, List.length_append]
      show a * 10 ^ (ds.length + 1) + (10 * valBE ds + d) =
        10 * (a * 10 ^ ds.length + valBE ds) + d
      ring

/-- `valBE` of the reversed digit list recovers the number. -/
theorem valBE_reverse_eq_ofDigits (L : List Nat) :
    valBE L.reverse = Nat.ofDigits 10 L := by
  induction L with
  | nil => rfl
  | cons d L ih =>
      rw [List.reverse_cons, valBE_append_single, ih, Nat.ofDigits_cons]
      ring

/-- Equal-length big-endian digit lists compare lexicographically as their
values do. -/
theorem lex_of_valBE_lt : ∀ (x y : List Nat), x.length = y.length →
    (∀ d ∈ x, d < 10) → (∀ d ∈ y, d < 10) → valBE x < valBE y →
    List.Lex (· < ·) x y := by
  intro x
  induction x with
  | nil =>
      intro y hlen _ _ hval
      cases y with
      | nil => exact absurd hval (by simp [valBE])
      | cons b ys => exact absurd hlen (by simp)
  | cons a xs ih =>
      intro y hlen hx hy hval
      cases y with
      | nil => exact absurd hlen (by simp)
      | cons b ys =>
          have hlen' : xs.length = ys.length := by simpa using hlen
          rcases lt_trichotomy a b with hab | hab | hab
          · exact List.Lex.rel hab
          · subst hab
            refine List.Lex.cons (ih ys hlen'
              (fun d hd => hx d (List.mem_cons_of_mem _ hd))
              (fun d hd => hy d (List.mem_cons_of_mem _ hd)) ?_)
            have : a * 10 ^ xs.length + valBE xs < a * 10 ^ ys.length + valBE ys := hval
            rw [hlen'] at this
            omega
          · exfalso
            have hys := valBE_lt ys (fun d hd => hy d (List.mem_cons_of_mem _ hd))
            have h1 : valBE (b :: ys) < (b + 1) * 10 ^ ys.length := by
              show b * 10 ^ ys.length + valBE ys < _
              rw [Nat.add_mul, Nat.one_mul]
              omega
            have h2 : (b + 1) * 10 ^ ys.length ≤ a * 10 ^ xs.length := by
              rw [hlen']
              exact Nat.mul_le_mul_right _ (by omega)
            have h3 : a * 10 ^ xs.length ≤ valBE (a :: xs) := by
              show _ ≤ a * 10 ^ xs.length + valBE xs
              omega
            omega

/-- Digit characters compare as the digits do. -/
theorem digitChar_mono : ∀ d₁, d₁ < 10 → ∀ d₂, d₂ < 10 → d₁ < d₂ →
    Char.ofNat (48 + d₁) < Char.ofNat (48 + d₂) := by decide

/-- Mapping to digit characters preserves strict lexicographic order of
digit lists. -/
theorem lex_map_digitChar : ∀ x y : List Nat, (∀ d ∈ x, d < 10) → (∀ d ∈ y, d < 10) →
    List.Lex (· < ·) x y →
    List.Lex (· < ·) (x.map (fun d => Char.ofNat (48 + d)))
      (y.map (fun d => Char.ofNat (48 + d))) := by
  intro x y hx hy hlex
  induction hlex with
  | nil => exact List.Lex.nil
  | @cons a l₁ l₂ h ih =>
      exact List.Lex.cons (ih (fun d hd => hx d (List.mem_cons_of_mem _ hd))
        (fun d hd => hy d (List.mem_cons_of_mem _ hd)))
  | @rel a₁ l₁ a₂ l₂ h =>
      exact List.Lex.rel (digitChar_mono a₁ (hx a₁ (List.mem_cons_self _ _))
        a₂ (hy a₂ (List.mem_cons_self _ _)) h)

/-- Strict lexicographic order on equal-length lists survives appending
arbitrary suffixes. -/
theorem lex_append_of_lex {α : Type} [LT α] (u v : List α) : ∀ {x y : List α},
    List.Lex (· < ·) x y → x.length = y.length →
    List.Lex (· < ·) (x ++ u) (y ++ v) := by
  intro x y hlex
  induction hlex with
  | nil =>
      intro hlen
      exact absurd hlen (by simp)
  | @cons a l₁ l₂ h ih =>
      intro hlen
      exact List.Lex.cons (ih (by simpa using hlen))
  | @rel a₁ l₁ a₂ l₂ h =>
      intro hlen
      exact List.Lex.rel h

/-- Strict lexicographic order survives prepending a common prefix. -/
theorem lex_append_left {α : Type} [LT α] (p : List α) {x y : List α}
    (hlex : List.Lex (· < ·) x y) : List.Lex (· < ·) (p ++ x) (p ++ y) := by
  induction p with
  | nil => exact hlex
  | cons a p ih => exact List.Lex.cons ih

/-- Big-endian digit characters of a positive number. -/
theorem decRepr_data (n : Nat) (hn : 0 < n) :
    (decRepr n).data =
      ((Nat.digits 10 n).reverse.map (fun d => Char.ofNat (48 + d))) := by
  unfold decRepr
  rw [if_neg (by omega)]
  show ((decDigitsRev n n).map (fun d => Char.ofNat (48 + d))).reverse = _
  rw [decDigitsRev_eq_digits n n le_rfl, ← List.map_reverse]

/-- Enqueue keys with the same prefix and equal-width strictly increasing
timestamps compare strictly in timestamp order, whatever the subjects
are. -/
theorem enqueueKey_lt (pfx : String) (t1 t2 : Nat) (u1 u2 : String)
    (h1 : 0 < t1) (h12 : t1 < t2)
    (hlen : (Nat.digits 10 t1).length = (Nat.digits 10 t2).length) :
    pfx ++ decRepr t1 ++ ":" ++ hashUrl u1 < pfx ++ decRepr t2 ++ ":" ++ hashUrl u2 := by
  rw [String.lt_iff_toList_lt]
  show List.Lex (· < ·) (pfx ++ decRepr t1 ++ ":" ++ hashUrl u1).data
    (pfx ++ decRepr t2 ++ ":" ++ hashUrl u2).data
  have hdig : ∀ t : Nat, ∀ d ∈ (Nat.digits 10 t).reverse, d < 10 := by
    intro t d hd
    exact Nat.digits_lt_base (by omega) (List.mem_reverse.mp hd)
  have hlex : List.Lex (· < ·) ((Nat.digits 10 t1).reverse)
      ((Nat.digits 10 t2).reverse) := by
    apply lex_of_valBE_lt _ _ (by simpa using hlen) (hdig t1) (hdig t2)
    rw [valBE_reverse_eq_ofDigits, valBE_reverse_eq_ofDigits,
      Nat.ofDigits_digits, Nat.ofDigits_digits]
    exact h12
  have hmap := lex_map_digitChar _ _ (hdig t1) (hdig t2) hlex
  have happ := lex_append_of_lex (':' :: (hashUrl u1).data) (':' :: (hashUrl u2).data)
    hmap (by simpa using hlen)
  have hfull := lex_append_left pfx.data happ
  simp only [String.data_append, decRepr_data t1 h1, decRepr_data t2 (by omega),
    List.append_assoc]
  simpa using hfull

/-- Sorting any permutation of three strictly ascending strings yields
them in order (`le` is the boolean `≤` the model's sort uses). -/
theorem mergeSort_eq_sorted_three (a b c : String) (hab : a < b) (hbc : b < c)
    (l : List String) (hperm : l.Perm [a, b, c]) :
    l.mergeSort (fun x y => decide (x ≤ y)) = [a, b, c] := by
  refine @List.eq_of_perm_of_sorted String (· ≤ ·) _ _ _
    ((List.mergeSort_perm l _).trans hperm) ?_ ?_
  · have hp := List.sorted_mergeSort
      (fun x y z (hxy : decide (x ≤ y) = true) (hyz : decide (y ≤ z) = true) =>
        decide_eq_true_eq.mpr (le_trans (of_decide_eq_true hxy) (of_decide_eq_true hyz)))
      (fun x y => by simpa [Bool.or_eq_true, decide_eq_true_eq] using le_total x y) l
    exact hp.imp (fun h => of_decide_eq_true h)
  · simp only [List.sorted_cons, List.mem_cons, List.mem_singleton, List.sorted_nil,
      List.not_mem_nil]
    refine ⟨fun x hx => ?_, fun x hx => ?_, by simp⟩
    · rcases hx with rfl | rfl | h
      · exact le_of_lt hab
      · exact le_of_lt (hab.trans hbc)
      · simp at h
    · rcases hx with rfl | h
      · exact le_of_lt hbc
      · simp at h

/-- Date.now() timestamps of the same decimal width: every `t` in
`[10^12, 10^13)` has exactly 13 digits. -/
theorem digits_len_13 (t : Nat) (hlo : 10 ^ 12 ≤ t) (hhi : t < 10 ^ 13) :
    (Nat.digits 10 t).length = 13 := by
  have ht0 : t ≠ 0 := by
    intro h
    rw [h] at hlo
    exact absurd hlo (by norm_num)
  rw [Nat.digits_len 10 t (by omega) ht0]
  have hup : Nat.log 10 t < 13 := (Nat.lt_pow_iff_log_lt (by omega) ht0).mp hhi
  have hdown : 12 ≤ Nat.log 10 t := by
    have h1 : Nat.log 10 (10 ^ 12) ≤ Nat.log 10 t := Nat.log_mono_right hlo
    rw [Nat.log_pow (by omega)] at h1
    exact h1
  omega

theorem eraseKey_cons_ne (a : String) (e : KVEntry) (l : Store) (k : String) (h : a ≠ k) :
    eraseKey ((a, e) :: l) k = (a, e) :: eraseKey l k := by
  simp [eraseKey, List.filter_cons, h]

theorem mem_of_mem_eraseKey {p : String × KVEntry} {l : Store} {k : String}
    (h : p ∈ eraseKey l k) : p ∈ l :=
  (List.mem_filter.mp h).1

/-- C4: three sequential `enqueue` calls to the same queue prefix with
strictly increasing, equal-width decimal timestamps (as `Date.now()`
yields throughout 2001-2286: thirteen digits) put three keys into the
queue which `listPending` (with limit at least 3, queried while the
entries are live) returns in exactly the order they were enqueued. -/
theorem listPending_three_enqueues (s0 : Store) (pfx : String) (t1 t2 t3 tq : Nat)
    (u1 u2 u3 : String) (j1 j2 j3 : QueueJob) (limit : Nat)
    (hclean : ∀ p, p ∈ s0 → strStartsWith pfx p.1 = false)
    (hw1 : 10 ^ 12 ≤ t1) (h12 : t1 < t2) (h23 : t2 < t3) (hw3 : t3 < 10 ^ 13)
    (htq : tq < t1 + daysToSeconds QUEUE_TTL_DAYS * 1000)
    (hlim : 3 ≤ limit) :
    listPending (enqueue (enqueue (enqueue s0 t1 pfx u1 j1).2 t2 pfx u2 j2).2
        t3 pfx u3 j3).2 tq pfx limit =
      [(enqueue s0 t1 pfx u1 j1).1,
       (enqueue (enqueue s0 t1 pfx u1 j1).2 t2 pfx u2 j2).1,
       (enqueue (enqueue (enqueue s0 t1 pfx u1 j1).2 t2 pfx u2 j2).2 t3 pfx u3 j3).1] := by
  have hpos1 : 0 < t1 := lt_of_lt_of_le (by norm_num) hw1
  have hl1 : (Nat.digits 10 t1).length = 13 := digits_len_13 t1 hw1 (by omega)
  have hl2 : (Nat.digits 10 t2).length = 13 :=
    digits_len_13 t2 (le_trans hw1 (le_of_lt h12)) (by omega)
  have hl3 : (Nat.digits 10 t3).length = 13 :=
    digits_len_13 t3 (le_trans hw1 (by omega)) hw3
  have hk12 := enqueueKey_lt pfx t1 t2 u1 u2 hpos1 h12 (hl1.trans hl2.symm)
  have hk23 := enqueueKey_lt pfx t2 t3 u2 u3 (by omega) h23 (hl2.trans hl3.symm)
  have hk13 := hk12.trans hk23
  have hne12 := ne_of_lt hk12
  have hne23 := ne_of_lt hk23
  have hne13 := ne_of_lt hk13
  simp only [listPending, kvList, enqueue, kvPut]
  rw [eraseKey_cons_ne _ _ _ _ hne23, eraseKey_cons_ne _ _ _ _ hne12,
    eraseKey_cons_ne _ _ _ _ hne13]
  rw [List.filter_cons_of_pos (by
    simp only [Bool.and_eq_true, decide_eq_true_eq]
    exact ⟨enqueueKey_has_pfx pfx t3 u3, by omega⟩)]
  rw [List.filter_cons_of_pos (by
    simp only [Bool.and_eq_true, decide_eq_true_eq]
    exact ⟨enqueueKey_has_pfx pfx t2 u2, by omega⟩)]
  rw [List.filter_cons_of_pos (by
    simp only [Bool.and_eq_true, decide_eq_true_eq]
    exact ⟨enqueueKey_has_pfx pfx t1 u1, by omega⟩)]
  rw [show List.filter
      (fun p => strStartsWith pfx p.1 && decide (tq < p.2.expiresAt))
      (eraseKey (eraseKey (eraseKey s0 (pfx ++ decRepr t1 ++ ":" ++ hashUrl u1))
        (pfx ++ decRepr t2 ++ ":" ++ hashUrl u2))
        (pfx ++ decRepr t3 ++ ":" ++ hashUrl u3)) = [] from by
    rw [List.filter_eq_nil_iff]
    intro p hp
    have hp0 : p ∈ s0 :=
      mem_of_mem_eraseKey (mem_of_mem_eraseKey (mem_of_mem_eraseKey hp))
    simp [hclean p hp0]]
  simp only [List.map_cons, List.map_nil]
  have hperm : ([pfx ++ decRepr t3 ++ ":" ++ hashUrl u3,
      pfx ++ decRepr t2 ++ ":" ++ hashUrl u2,
      pfx ++ decRepr t1 ++ ":" ++ hashUrl u1] : List String).Perm
      [pfx ++ decRepr t1 ++ ":" ++ hashUrl u1,
       pfx ++ decRepr t2 ++ ":" ++ hashUrl u2,
       pfx ++ decRepr t3 ++ ":" ++ hashUrl u3] := by
    have hrev := List.reverse_perm [pfx ++ decRepr t1 ++ ":" ++ hashUrl u1,
      pfx ++ decRepr t2 ++ ":" ++ hashUrl u2,
      pfx ++ decRepr t3 ++ ":" ++ hashUrl u3]
    simpa using hrev
  rw [mergeSort_eq_sorted_three _ _ _ hk12 hk23 _ hperm]
  rw [List.take_of_length_le (by simpa using hlim)]
  exact mergeSort_eq_sorted_three _ _ _ hk12 hk23 _ (List.Perm.refl _)

/-- Witness for C4: three enqueues at consecutive millisecond timestamps
on an empty store list back in enqueue order. -/
theorem listPending_three_enqueues_witness :
    listPending (enqueue (enqueue (enqueue kvEmpty 1700000000000 NOTIFY_QUEUE_PFX "a"
        ⟨0, none, none, none, none, none, none⟩).2 1700000000001 NOTIFY_QUEUE_PFX "b"
        ⟨0, none, none, none, none, none, none⟩).2 1700000000002 NOTIFY_QUEUE_PFX "c"
        ⟨0, none, none, none, none, none, none⟩).2 1700000000002 NOTIFY_QUEUE_PFX 3 =
      [(enqueue kvEmpty 1700000000000 NOTIFY_QUEUE_PFX "a"
          ⟨0, none, none, none, none, none, none⟩).1,
       (enqueue (enqueue kvEmpty 1700000000000 NOTIFY_QUEUE_PFX "a"
          ⟨0, none, none, none, none, none, none⟩).2 1700000000001 NOTIFY_QUEUE_PFX "b"
          ⟨0, none, none, none, none, none, none⟩).1,
       (enqueue (enqueue (enqueue kvEmpty 1700000000000 NOTIFY_QUEUE_PFX "a"
          ⟨0, none, none, none, none, none, none⟩).2 1700000000001 NOTIFY_QUEUE_PFX "b"
          ⟨0, none, none, none, none, none, none⟩).2 1700000000002 NOTIFY_QUEUE_PFX "c"
          ⟨0, none, none, none, none, none, none⟩).1] :=
  listPending_three_enqueues kvEmpty NOTIFY_QUEUE_PFX 1700000000000 1700000000001
    1700000000002 1700000000002 "a" "b" "c"
    ⟨0, none, none, none, none, none, none⟩ ⟨0, none, none, none, none, none, none⟩
    ⟨0, none, none, none, none, none, none⟩ 3
    (fun p hp => absurd hp (List.not_mem_nil p))
    (by decide) (by decide) (by decide) (by decide) (by decide) (by decide)
